import Mathlib

/-!
Verification development for the auto-paper-harvester repository.

We give a shallow embedding of the core download-orchestration code
(`auto_paper_download/downloader.py`, `auto_paper_download/clients.py`)
and prove the spec's testable properties against it.

Modelling conventions:
* Python strings are Lean `String` / `List Char`; bytes are `List Nat`.
* The filesystem is an explicit state (`FS`): a set of article directories
  plus a map from `(directory, filename)` keys to file contents.
* Network interactions are abstracted into environments: each provider
  attempt's outcome (success with streamed bytes, a raised `DownloadError`,
  or another exception) is supplied by a `RecordEnv` / `HttpResponse`
  parameter, while all control flow around the calls is translated
  literally from the source.
* Python floats are modelled as rationals (`ℚ`).
-/

namespace AutoPaper

/-! ## Python `in` (substring containment) on strings -/

/-- Python `needle in hay` for strings: `needle.data` occurs contiguously in
`hay.data`.  Implemented as a direct scan. -/
def containsSub (hay needle : List Char) : Bool :=
  if needle.isPrefixOf hay then true
  else
    match hay with
    | [] => false
    | _ :: t => containsSub t needle

/-- Python `needle in hay` on `String`. -/
def pyIn (needle hay : String) : Bool :=
  containsSub hay.data needle.data

/-- Python `s.lower()`: character-wise lower-casing (the DOIs, publisher
labels and error messages this is applied to are ASCII). -/
def lowerString (s : String) : String :=
  String.mk (s.data.map Char.toLower)

/-- Python `s.startswith(pre)`. -/
def startsWithStr (s pre : String) : Bool :=
  pre.data.isPrefixOf s.data

/-! ## Publisher classifier (`downloader.py:classify_publisher`) -/

def WILEY_PREFIXES : List String := ["10.1002", "10.1111"]

def ELSEVIER_PREFIXES : List String := ["10.1016", "10.1011"]

def SPRINGER_PREFIXES : List String := ["10.1007", "10.1038", "10.1186"]

/-- `downloader.py:classify_publisher`.  Lower-cases the DOI, tests it against
the premium publisher tables in order, and falls back to `"Crossref"`.
The Python return annotation is `str | None`, hence `Option String`. -/
def classify_publisher (doi : String) : Option String :=
  if WILEY_PREFIXES.any (fun p => startsWithStr (lowerString doi) p) then some "Wiley"
  else if ELSEVIER_PREFIXES.any (fun p => startsWithStr (lowerString doi) p) then
    some "Elsevier"
  else if SPRINGER_PREFIXES.any (fun p => startsWithStr (lowerString doi) p) then
    some "Springer"
  else some "Crossref"

/-! ## DOI extraction (`downloader.py:extract_dois`, `DOI_PATTERN`) -/

/-- A character in the `[\x21-\x7E]` class of `DOI_PATTERN` (visible ASCII). -/
def isVisibleAscii (c : Char) : Bool :=
  0x21 ≤ c.toNat && c.toNat ≤ 0x7E

/-- Regex backtracking for `\d{4,9}/`: starting from the greedy digit count,
find the largest `k` (with `4 ≤ k`) such that position `k` of `rest` holds
`'/'`. -/
def tryK (rest : List Char) : Nat → Option Nat
  | 0 => none
  | k + 1 =>
    if k + 1 < 4 then none
    else if rest.get? (k + 1) = some '/' then some (k + 1)
    else tryK rest k

/-- Attempt to match `DOI_PATTERN` = `10\.\d{4,9}/[\x21-\x7E]+` at the head of
`l`.  On success, return the matched token and the remaining input (regex
matching is greedy, with backtracking on the digit count). -/
def matchAt (l : List Char) : Option (List Char × List Char) :=
  match l with
  | a :: b :: c :: rest =>
    if a = '1' ∧ b = '0' ∧ c = '.' then
      let n := (rest.takeWhile Char.isDigit).length
      match tryK rest (min n 9) with
      | none => none
      | some k =>
        let afterSlash := rest.drop (k + 1)
        let vis := afterSlash.takeWhile isVisibleAscii
        if vis = [] then none
        else some ('1' :: '0' :: '.' :: (rest.take k ++ '/' :: vis),
                   afterSlash.drop vis.length)
    else none
  | _ => none

/-- Scan the input left to right, emitting non-overlapping pattern matches
(`re.finditer` semantics).  `fuel` bounds the recursion; every step consumes
at least one character, so `fuel = l.length` never runs out. -/
def findTokensAux : Nat → List Char → List (List Char)
  | 0, _ => []
  | _ + 1, [] => []
  | fuel + 1, c :: cs =>
    match matchAt (c :: cs) with
    | some (tok, rest) => tok :: findTokensAux fuel rest
    | none => findTokensAux fuel cs

/-- All matches of `DOI_PATTERN` in the input, in order. -/
def findTokens (l : List Char) : List (List Char) :=
  findTokensAux l.length l

/-- Python `str.strip()` on a character list. -/
def stripWs (l : List Char) : List Char :=
  ((l.dropWhile Char.isWhitespace).reverse.dropWhile Char.isWhitespace).reverse

/-- The `while candidate and ord(candidate[-1]) < 32:` loop of `extract_dois`:
drop trailing control characters. -/
def trimTrailingControl (l : List Char) : List Char :=
  (l.reverse.dropWhile (fun c => c.toNat < 32)).reverse

/-- Post-processing applied to each regex match in `extract_dois`. -/
def cleanCandidate (tok : List Char) : List Char :=
  trimTrailingControl (stripWs tok)

/-- The deduplication loop of `extract_dois`: `seen` is the set of already
emitted candidates (modelled as a list). -/
def extract_dois_aux : List (List Char) → List (List Char) → List (List Char)
  | [], _ => []
  | t :: ts, seen =>
    let cand := cleanCandidate t
    if cand = [] ∨ cand ∈ seen then extract_dois_aux ts seen
    else cand :: extract_dois_aux ts (cand :: seen)

/-- `downloader.py:extract_dois`, applied to the decoded text of the input
file (the file read itself is outside the model). -/
def extract_dois (text : List Char) : List (List Char) :=
  extract_dois_aux (findTokens text) []

/-- Reference first-occurrence deduplication: keep the first occurrence of
each element, in order.  Used to state what the `seen`-set loop computes. -/
def dedupFirst : List (List Char) → List (List Char)
  | [] => []
  | a :: l => a :: dedupFirst (l.filter (fun x => ¬ x = a))
termination_by l => l.length
decreasing_by
  simp only [List.length_cons]
  exact Nat.lt_succ_of_le (List.length_filter_le _ _)

/-! ## Filesystem state

Article output is one directory per record under a fixed output root, so a
path is modelled as `(directory, filename)`; directories are the set of
article directories that exist. -/

structure FS where
  dirs : List String
  files : List ((String × String) × List Nat)
deriving DecidableEq, Repr

def fsHasDir (fs : FS) (d : String) : Bool :=
  fs.dirs.contains d

def fsHasFile (fs : FS) (k : String × String) : Bool :=
  (fs.files.find? (fun e => e.1 = k)).isSome

def fsLookup (fs : FS) (k : String × String) : Option (List Nat) :=
  (fs.files.find? (fun e => e.1 = k)).map (·.2)

def fsWrite (fs : FS) (k : String × String) (v : List Nat) : FS :=
  { fs with files := (k, v) :: fs.files.filter (fun e => ¬ e.1 = k) }

def fsRemoveFile (fs : FS) (k : String × String) : FS :=
  { fs with files := fs.files.filter (fun e => ¬ e.1 = k) }

/-- `Path.mkdir(parents=True, exist_ok=True)` on an article directory. -/
def fsAddDir (fs : FS) (d : String) : FS :=
  if fs.dirs.contains d then fs else { fs with dirs := d :: fs.dirs }

/-- `legacy.rename(destination)`. -/
def fsRename (fs : FS) (old new : String × String) : FS :=
  match fsLookup fs old with
  | some v => fsWrite (fsRemoveFile fs old) new v
  | none => fs

/-- No file of the filesystem lives inside directory `d`. -/
def fsDirEmpty (fs : FS) (d : String) : Bool :=
  fs.files.all (fun e => ¬ e.1.1 = d)

/-- `clients.py:_cleanup_article_dir`: remove the directory iff it exists and
contains no files. -/
def cleanupDir (fs : FS) (d : String) : FS :=
  if fsHasDir fs d ∧ fsDirEmpty fs d then
    { fs with dirs := fs.dirs.filter (fun x => ¬ x = d) }
  else fs

/-! ## `clients.py:_safe_identifier` -/

/-- A character of the class `[0-9A-Za-z._-]` (complement of
`_SAFE_PATH_CHARS`). -/
def safeChar (c : Char) : Bool :=
  c.isAlphanum || c = '.' || c = '_' || c = '-'

/-- Scan for `_SAFE_PATH_CHARS.sub("_", identifier)`: `skipping` records
whether the scanner is inside a run of unsafe characters whose underscore
was already emitted. -/
def collapseUnsafeAux : Bool → List Char → List Char
  | _, [] => []
  | skipping, c :: cs =>
    if safeChar c then c :: collapseUnsafeAux false cs
    else if skipping then collapseUnsafeAux true cs
    else '_' :: collapseUnsafeAux true cs

/-- `_SAFE_PATH_CHARS.sub("_", identifier)`: replace each maximal run of
unsafe characters by a single underscore. -/
def collapseUnsafe (l : List Char) : List Char :=
  collapseUnsafeAux false l

/-- `cleaned.strip("._")`. -/
def stripDotUnderscore (l : List Char) : List Char :=
  ((l.dropWhile (fun c => c = '.' ∨ c = '_')).reverse.dropWhile
    (fun c => c = '.' ∨ c = '_')).reverse

/-- `clients.py:_safe_identifier`. -/
def safe_identifier (s : String) : String :=
  let cleaned := stripDotUnderscore (collapseUnsafe s.data)
  let cleaned := if cleaned = [] then "article".data else cleaned
  String.mk (cleaned.take 150)

/-! ## Records and errors -/

/-- `clients.py:ArticleRecord`. -/
structure ArticleRecord where
  title : String
  doi : Option String := none
  pii : Option String := none
  pmid : Option String := none
  url : Option String := none
  publisher : Option String := none
deriving DecidableEq, Repr

/-- Python exceptions relevant to the download path: `DownloadError`,
`ValueError`, and any other exception type (caught by the orchestrator's
broad `except Exception`). -/
inductive PyError where
  | downloadError (msg : String)
  | valueError (msg : String)
  | otherError
deriving DecidableEq, Repr

/-! ## `clients.py:_article_destination` -/

/-- `_article_destination`: make the directory, resolve `<base>.pdf`, and
migrate a legacy `article.pdf` if present with no conflicting file. -/
def article_destination (fs : FS) (dirName base : String) :
    FS × (String × String) :=
  let fs1 := fsAddDir fs dirName
  let dest := (dirName, base ++ ".pdf")
  let legacy := (dirName, "article.pdf")
  let fs2 :=
    if fsHasFile fs1 legacy ∧ ¬ fsHasFile fs1 dest then fsRename fs1 legacy dest
    else fs1
  (fs2, dest)

/-! ## Provider client `download_pdf` models (`clients.py`)

A client call returns the produced path or a raised exception, the new
filesystem, and the number of outbound HTTP requests it performed. -/

structure HttpResponse where
  status : Nat
  body : List Nat
  text : String
deriving DecidableEq, Repr

structure ClientResult where
  result : Except PyError (String × String)
  fs : FS
  netCalls : Nat
deriving Repr

/-- `WileyClient.download_pdf`: early return on an existing destination, else
one streamed GET whose response is supplied by `resp`. -/
def wiley_download_pdf (doi : String) (destination : String × String)
    (overwrite : Bool) (fs : FS) (resp : HttpResponse) : ClientResult :=
  if fsHasFile fs destination ∧ ¬ overwrite then
    ⟨.ok destination, fs, 0⟩
  else
    let fs1 := fsAddDir fs destination.1
    let _ := doi
    if ¬ resp.status = 200 then
      ⟨.error (.downloadError
        ("Wiley download failed (" ++ toString resp.status ++ "): " ++ resp.text)),
       fs1, 1⟩
    else
      ⟨.ok destination, fsWrite fs1 destination resp.body, 1⟩

/-- One license entry of a Crossref work.  `startPassed` abstracts
`_is_license_active` (a wall-clock comparison of the license start date). -/
structure CrossrefLicense where
  url : String
  startPassed : Bool
deriving DecidableEq, Repr

/-- One content link of a Crossref work.  An absent `URL` is modelled as
the empty string (falsy in Python). -/
structure CrossrefLink where
  contentType : String
  url : String
  intendedApplication : String
deriving DecidableEq, Repr

structure CrossrefWork where
  licenses : List CrossrefLicense
  links : List CrossrefLink
deriving DecidableEq, Repr

/-- Network environment of one `CrossrefClient.download_pdf` call:
the metadata lookup outcome, the link-header fallback result (its HTTP
header parsing is abstracted to the resulting URL, `none` on any failure),
and the content GET response for a given URL. -/
structure CrossrefEnv where
  work : Except String CrossrefWork
  headerLink : Option String
  content : String → HttpResponse

/-- `CrossrefClient._license_allowed`. -/
def license_allowed (safelist : Option (List String)) (work : CrossrefWork) :
    Bool :=
  match safelist with
  | none => true
  | some sl =>
    if work.licenses = [] then false
    else work.licenses.any fun e =>
      ¬ lowerString e.url = "" && e.startPassed &&
        sl.any (fun p => startsWithStr (lowerString e.url) p)

/-- `CrossrefClient._preferred_link`: among links with content type
`application/pdf` and a URL, prefer `intended-application == "text-mining"`
(Python's stable sort keeps the first link of the minimal priority). -/
def preferred_link (links : List CrossrefLink) : Option String :=
  let candidates := links.filterMap fun link =>
    if lowerString link.contentType = "application/pdf" ∧ ¬ link.url = "" then
      some ((if link.intendedApplication = "text-mining" then 0 else 1), link.url)
    else none
  match candidates.find? (fun c => c.1 = 0) with
  | some c => some c.2
  | none => candidates.head?.map (·.2)

/-- `CrossrefClient._select_pdf_url`. -/
def select_pdf_url (work : CrossrefWork) : Option String :=
  preferred_link work.links

/-- The streamed content GET at the end of `CrossrefClient.download_pdf`,
including the Cloudflare-specific 403 message. -/
def crossrefContentStep (doi : String) (destination : String × String)
    (fs : FS) (resp : HttpResponse) (calls : Nat) : ClientResult :=
  if ¬ resp.status = 200 then
    let message :=
      if resp.status = 403 ∧ pyIn "Just a moment" resp.text then
        "Crossref download blocked by Cloudflare (403) for DOI " ++ doi
      else
        "Crossref download failed (" ++ toString resp.status ++ ") for DOI " ++ doi
    ⟨.error (.downloadError message), fs, calls + 1⟩
  else
    ⟨.ok destination, fsWrite fs destination resp.body, calls + 1⟩

/-- `CrossrefClient.download_pdf`.  Note the guard order of the source: the
empty-DOI `ValueError` precedes the existing-destination early return. -/
def crossref_download_pdf (safelist : Option (List String)) (doi : String)
    (destination : String × String) (overwrite : Bool) (fs : FS)
    (env : CrossrefEnv) : ClientResult :=
  if doi = "" then
    ⟨.error (.valueError "CrossrefClient.download_pdf requires a DOI."), fs, 0⟩
  else if fsHasFile fs destination ∧ ¬ overwrite then
    ⟨.ok destination, fs, 0⟩
  else
    match env.work with
    | .error msg => ⟨.error (.downloadError msg), fs, 1⟩
    | .ok work =>
      if ¬ license_allowed safelist work then
        ⟨.error (.downloadError
          ("Crossref license for DOI " ++ doi ++ " not in allowed safelist.")),
         fs, 1⟩
      else
        match select_pdf_url work with
        | some url =>
          crossrefContentStep doi destination (fsAddDir fs destination.1)
            (env.content url) 1
        | none =>
          match env.headerLink with
          | some url =>
            crossrefContentStep doi destination (fsAddDir fs destination.1)
              (env.content url) 2
          | none =>
            ⟨.error (.downloadError
              ("No PDF link found via Crossref for DOI " ++ doi)), fs, 2⟩

/-! ## `clients.py:batched_download`

The orchestration loop is embedded as explicit state passing.  Each record
carries an environment giving the outcome each provider's `download_pdf`
would produce once it goes past its existing-file guard, and the outcome of
each `download_supplements_for_doi` call. -/

/-- Outcome of a provider `download_pdf` call beyond the existing-file
guard: streamed success bytes, a raised `DownloadError`, or another raised
exception. -/
inductive AttemptOutcome where
  | ok (bytes : List Nat)
  | errDL (msg : String)
  | errOther
deriving DecidableEq, Repr

/-- Outcome of one `download_supplements_for_doi` call: the supplementary
filenames saved into the article directory, or an uncaught exception (the
helper catches `requests.RequestException` but e.g. filesystem errors
escape it). -/
inductive SupplOutcome where
  | saved (names : List String)
  | raises
deriving DecidableEq, Repr

structure RecordEnv where
  elsevier : AttemptOutcome
  wiley : AttemptOutcome
  springer : AttemptOutcome
  openalex : AttemptOutcome
  crossref : AttemptOutcome
  suppl : Nat → SupplOutcome

inductive Provider where
  | elsevier | wiley | springer | openalex | crossref
deriving DecidableEq, Repr

/-- Observable events of the batch generator, in program order. -/
inductive BEvent where
  | call (p : Provider)
  | supplCall
  | yieldPdf (dir name : String)
  | yieldSuppl (dir name : String)
  | slept
  | cleanup (dir : String)
  | skipped (doi : String)
  | failed (ident : String)
deriving DecidableEq, Repr

/-- The configuration of one `batched_download` invocation: which clients
were constructed, plus the keyword arguments. -/
structure BatchConfig where
  hasElsevier : Bool
  hasCrossref : Bool
  hasOpenalex : Bool
  hasSpringer : Bool
  hasWiley : Bool
  overwrite : Bool
  delay_seconds : Option ℚ
  raise_on_error : Bool
  metricsOn : Bool
deriving DecidableEq, Repr

/-- Python truthiness of the `delay_seconds` argument
(`if delay_seconds: time.sleep(...)`). -/
def delayTruthy : Option ℚ → Bool
  | none => false
  | some d => ¬ d = 0

/-- Batch state: the metrics mapping (label ↦ (attempted, succeeded)), the
filesystem, yielded paths, sleep count and failure reports. -/
structure BatchState where
  metrics : List (String × Nat × Nat)
  fs : FS
  yielded : List (String × String)
  sleeps : Nat
  failures : List String
deriving DecidableEq, Repr

/-- Result of the `try:` body for one record, before the orchestrator's
outer exception handler runs. -/
structure BodyOut where
  fs : FS
  yields : List (String × String)
  events : List BEvent
  articleDir : Option String
  pdfDownloaded : Bool
  skip : Bool
  err : Option PyError
deriving Repr

/-- A provider `download_pdf` call as seen from `batched_download`: the
existing-file guard shared by every client, then the environment-supplied
outcome. -/
def runAttempt (overwrite : Bool) (out : AttemptOutcome) (fs : FS)
    (dest : String × String) : Except PyError FS :=
  if fsHasFile fs dest ∧ ¬ overwrite then .ok fs
  else
    match out with
    | .ok bytes => .ok (fsWrite fs dest bytes)
    | .errDL msg => .error (.downloadError msg)
    | .errOther => .error .otherError

/-- A `download_supplements_for_doi` call: write the saved supplement files
into the article directory and return their names, or raise. -/
def runSuppl (out : SupplOutcome) (fs : FS) (dir : String) :
    Except PyError (FS × List String) :=
  match out with
  | .saved names =>
    .ok (names.foldl (fun f n => fsWrite f (dir, n) []) fs, names)
  | .raises => .error .otherError

/-- The primary-download-then-supplements sequence shared by the Elsevier,
Wiley and Springer branches (with `withSuppl = false` for an Elsevier record
without DOI, which skips supplement discovery). -/
def primaryThenSuppl (overwrite : Bool) (p : Provider) (out : AttemptOutcome)
    (supplOut : SupplOutcome) (withSuppl : Bool) (fs : FS)
    (dest : String × String) : BodyOut :=
  match runAttempt overwrite out fs dest with
  | .error e => ⟨fs, [], [.call p], some dest.1, false, false, some e⟩
  | .ok fs2 =>
    if withSuppl then
      match runSuppl supplOut fs2 dest.1 with
      | .ok (fs3, names) =>
        ⟨fs3, dest :: names.map (fun n => (dest.1, n)),
         [.call p, .yieldPdf dest.1 dest.2, .supplCall] ++
           names.map (fun n => BEvent.yieldSuppl dest.1 n),
         some dest.1, true, false, none⟩
      | .error e =>
        ⟨fs2, [dest], [.call p, .yieldPdf dest.1 dest.2, .supplCall],
         some dest.1, true, false, some e⟩
    else
      ⟨fs2, [dest], [.call p, .yieldPdf dest.1 dest.2], some dest.1, true,
       false, none⟩

/-- The Elsevier branch of the `for record in records:` body. -/
def elsevierBranch (cfg : BatchConfig) (env : RecordEnv) (rec : ArticleRecord)
    (fs : FS) : BodyOut :=
  if ¬ cfg.hasElsevier then
    ⟨fs, [], [], none, false, false,
     some (.downloadError "ElsevierClient missing for Elsevier record.")⟩
  else
    let ident :=
      if ¬ rec.doi.getD "" = "" then rec.doi.getD "" else rec.pii.getD ""
    if ident = "" then
      ⟨fs, [], [], none, false, false,
       some (.downloadError ("No DOI/PII for Elsevier record: " ++ rec.title))⟩
    else
      let fname := safe_identifier ident
      let (fs1, dest) := article_destination fs fname fname
      primaryThenSuppl cfg.overwrite .elsevier env.elsevier (env.suppl 0)
        (¬ rec.doi.getD "" = "") fs1 dest

/-- The Wiley branch of the loop body. -/
def wileyBranch (cfg : BatchConfig) (env : RecordEnv) (rec : ArticleRecord)
    (fs : FS) : BodyOut :=
  if ¬ cfg.hasWiley then
    ⟨fs, [], [], none, false, false,
     some (.downloadError "WileyClient missing for Wiley record.")⟩
  else if rec.doi.getD "" = "" then
    ⟨fs, [], [], none, false, false,
     some (.downloadError ("No DOI for Wiley record: " ++ rec.title))⟩
  else
    let fname := safe_identifier (rec.doi.getD "")
    let (fs1, dest) := article_destination fs fname fname
    primaryThenSuppl cfg.overwrite .wiley env.wiley (env.suppl 0) true fs1 dest

/-- The message test of the Springer subscription-wall handler. -/
def springerWallMsg (msg : String) : Bool :=
  pyIn "metadata not found" (lowerString msg) || pyIn "download failed (403" (lowerString msg)

/-- The Springer branch of the loop body, including the inner
`except DownloadError` handler that turns a subscription-wall signal into a
skip (`continue`) after cleaning the article directory. -/
def springerBranch (cfg : BatchConfig) (env : RecordEnv) (rec : ArticleRecord)
    (fs : FS) : BodyOut :=
  if ¬ cfg.hasSpringer then
    ⟨fs, [], [], none, false, false,
     some (.downloadError "SpringerClient missing for Springer record.")⟩
  else if rec.doi.getD "" = "" then
    ⟨fs, [], [], none, false, false,
     some (.downloadError ("No DOI for Springer record: " ++ rec.title))⟩
  else
    let fname := safe_identifier (rec.doi.getD "")
    let (fs1, dest) := article_destination fs fname fname
    match runAttempt cfg.overwrite env.springer fs1 dest with
    | .error e =>
      match e with
      | .downloadError msg =>
        if springerWallMsg msg then
          ⟨cleanupDir fs1 fname, [],
           [.call .springer, .skipped (rec.doi.getD ""), .cleanup fname],
           some fname, false, true, none⟩
        else
          ⟨fs1, [], [.call .springer], some fname, false, false, some e⟩
      | e' => ⟨fs1, [], [.call .springer], some fname, false, false, some e'⟩
    | .ok fs2 =>
      match runSuppl (env.suppl 0) fs2 fname with
      | .ok (fs3, names) =>
        ⟨fs3, dest :: names.map (fun n => (fname, n)),
         [.call .springer, .yieldPdf fname dest.2, .supplCall] ++
           names.map (fun n => BEvent.yieldSuppl fname n),
         some fname, true, false, none⟩
      | .error e =>
        ⟨fs2, [dest], [.call .springer, .yieldPdf fname dest.2, .supplCall],
         some fname, true, false, some e⟩

/-- Intermediate state of the Crossref branch's provider chain loop. -/
structure ChainState where
  fs : FS
  yields : List (String × String)
  events : List BEvent
  pdfDownloaded : Bool
  success : Bool
  tried : List PyError
  supplUsed : Nat
deriving Repr

/-- One provider block of the Crossref chain (the OpenAlex attempt and the
Crossref fallback attempt have identical structure): attempt the primary
download, yield it, then attempt supplements; any exception is appended to
`tried` (the block's broad `except Exception`). -/
def chainBlock (overwrite : Bool) (p : Provider) (out : AttemptOutcome)
    (env : RecordEnv) (fname : String) (c : ChainState) : ChainState :=
  let (fs1, dest) := article_destination c.fs fname fname
  match runAttempt overwrite out fs1 dest with
  | .error e =>
    { c with fs := fs1, events := c.events ++ [.call p],
             tried := c.tried ++ [e] }
  | .ok fs2 =>
    match runSuppl (env.suppl c.supplUsed) fs2 fname with
    | .ok (fs3, names) =>
      { fs := fs3,
        yields := c.yields ++ dest :: names.map (fun n => (fname, n)),
        events := c.events ++
          [.call p, .yieldPdf fname dest.2, .supplCall] ++
          names.map (fun n => BEvent.yieldSuppl fname n),
        pdfDownloaded := true, success := true, tried := c.tried,
        supplUsed := c.supplUsed + 1 }
    | .error e =>
      { fs := fs2, yields := c.yields ++ [dest],
        events := c.events ++ [.call p, .yieldPdf fname dest.2, .supplCall],
        pdfDownloaded := true, success := false, tried := c.tried ++ [e],
        supplUsed := c.supplUsed + 1 }

/-- The provider chain of the Crossref branch: the OpenAlex block if that
client is constructed, then the Crossref block if that client is
constructed and no success yet. -/
def crossrefChain (cfg : BatchConfig) (env : RecordEnv) (fname : String)
    (fs : FS) : ChainState :=
  let c0 : ChainState := ⟨fs, [], [], false, false, [], 0⟩
  let c1 :=
    if cfg.hasOpenalex then
      chainBlock cfg.overwrite .openalex env.openalex env fname c0
    else c0
  if ¬ c1.success ∧ cfg.hasCrossref then
    chainBlock cfg.overwrite .crossref env.crossref env fname c1
  else c1

/-- The tail of the Crossref branch: on no success, re-raise the last
recorded exception, or report that neither client is configured. -/
def crossrefFinish (fname : String) (c : ChainState) : BodyOut :=
  if c.success then
    ⟨c.fs, c.yields, c.events, some fname, c.pdfDownloaded, false, none⟩
  else
    match c.tried.getLast? with
    | some e =>
      ⟨c.fs, c.yields, c.events, some fname, c.pdfDownloaded, false, some e⟩
    | none =>
      ⟨c.fs, c.yields, c.events, some fname, c.pdfDownloaded, false,
       some (.downloadError
         "Neither OpenAlexClient nor CrossrefClient configured for Crossref record.")⟩

/-- The Crossref branch of the loop body: OpenAlex first (if constructed),
then the Crossref client (if constructed and no success yet); on no success,
re-raise the last recorded exception, or report that neither client is
configured. -/
def crossrefBranch (cfg : BatchConfig) (env : RecordEnv) (rec : ArticleRecord)
    (fs : FS) : BodyOut :=
  if rec.doi.getD "" = "" then
    ⟨fs, [], [], none, false, false,
     some (.downloadError ("No DOI for Crossref record: " ++ rec.title))⟩
  else
    crossrefFinish (safe_identifier (rec.doi.getD ""))
      (crossrefChain cfg env (safe_identifier (rec.doi.getD "")) fs)

/-- The `try:` body of the per-record loop: dispatch on the lower-cased
publisher by substring containment, in source order. -/
def recordBody (cfg : BatchConfig) (env : RecordEnv) (rec : ArticleRecord)
    (fs : FS) : BodyOut :=
  let publisher := lowerString (rec.publisher.getD "")
  if pyIn "elsevier" publisher then elsevierBranch cfg env rec fs
  else if pyIn "wiley" publisher then wileyBranch cfg env rec fs
  else if pyIn "springer" publisher then springerBranch cfg env rec fs
  else if pyIn "crossref" publisher then crossrefBranch cfg env rec fs
  else
    ⟨fs, [], [], none, false, false,
     some (.downloadError
       ("Unsupported publisher for record " ++
         (rec.publisher.getD "None") ++ ": " ++ rec.title))⟩

/-! ### Metrics helpers -/

def mGet (m : List (String × Nat × Nat)) (l : String) : Option (Nat × Nat) :=
  (m.find? (fun e => e.1 = l)).map (·.2)

/-- `metrics.setdefault(label, {"attempted": 0, "succeeded": 0})` followed by
`metrics_entry["attempted"] += 1`. -/
def bumpAttempted (m : List (String × Nat × Nat)) (l : String) :
    List (String × Nat × Nat) :=
  if (m.find? (fun e => e.1 = l)).isSome then
    m.map (fun e => if e.1 = l then (e.1, e.2.1 + 1, e.2.2) else e)
  else m ++ [(l, 1, 0)]

/-- `metrics_entry["succeeded"] += 1` (the entry exists, having been created
by the `setdefault` at the start of the record). -/
def bumpSucceeded (m : List (String × Nat × Nat)) (l : String) :
    List (String × Nat × Nat) :=
  m.map (fun e => if e.1 = l then (e.1, e.2.1, e.2.2 + 1) else e)

def mAtt (m : List (String × Nat × Nat)) (l : String) : Nat :=
  ((mGet m l).map (·.1)).getD 0

def mSucc (m : List (String × Nat × Nat)) (l : String) : Nat :=
  ((mGet m l).map (·.2)).getD 0

/-- The identifier the outer handler logs for a failed record
(`record.doi or record.title` for a `DownloadError`, `record.title`
otherwise). -/
def failIdent (e : PyError) (rec : ArticleRecord) : String :=
  match e with
  | .downloadError _ =>
    if ¬ rec.doi.getD "" = "" then rec.doi.getD "" else rec.title
  | _ => rec.title

/-- One iteration of the `for record in records:` loop: the attempted-metric
bump, the body, then the success epilogue (succeeded metric and sleep) or
the outer exception handler (cleanup, failure report, optional re-raise). -/
def processRecord (cfg : BatchConfig) (env : RecordEnv) (rec : ArticleRecord)
    (st : BatchState) : BatchState × List BEvent × Option PyError :=
  let label := rec.publisher.getD "Unknown"
  let m1 := if cfg.metricsOn then bumpAttempted st.metrics label else st.metrics
  let b := recordBody cfg env rec st.fs
  match b.err with
  | some e =>
    let fsC := match b.articleDir with
      | some dname => cleanupDir b.fs dname
      | none => b.fs
    let evC : List BEvent := match b.articleDir with
      | some dname => [.cleanup dname]
      | none => []
    (⟨m1, fsC, st.yielded ++ b.yields, st.sleeps,
      st.failures ++ [failIdent e rec]⟩,
     b.events ++ evC ++ [.failed (failIdent e rec)],
     if cfg.raise_on_error then some e else none)
  | none =>
    if b.skip then
      (⟨m1, b.fs, st.yielded ++ b.yields, st.sleeps, st.failures⟩,
       b.events, none)
    else
      let m2 :=
        if cfg.metricsOn ∧ b.pdfDownloaded then bumpSucceeded m1 label else m1
      if delayTruthy cfg.delay_seconds then
        (⟨m2, b.fs, st.yielded ++ b.yields, st.sleeps + 1, st.failures⟩,
         b.events ++ [.slept], none)
      else
        (⟨m2, b.fs, st.yielded ++ b.yields, st.sleeps, st.failures⟩,
         b.events, none)

/-- The whole `batched_download` loop: process records in order; an
exception propagating out of a record (`raise_on_error`) terminates the
generator. -/
def runBatch (cfg : BatchConfig) :
    List (RecordEnv × ArticleRecord) → BatchState →
    BatchState × List BEvent × Option PyError
  | [], st => (st, [], none)
  | (env, rec) :: rest, st =>
    match processRecord cfg env rec st with
    | (st1, ev1, some e) => (st1, ev1, some e)
    | (st1, ev1, none) =>
      match runBatch cfg rest st1 with
      | (st2, ev2, e2) => (st2, ev1 ++ ev2, e2)

/-! ## `downloader.py:download_from_savedrecs` (plan construction)

The part of `download_from_savedrecs` between DOI extraction and the
`batched_download` call: record construction, per-publisher capping, client
construction with publisher disabling, the delay floor, and the dry-run
early exit.  Credential presence is a parameter (`CredsConfig`).

As staged, the function can never reach its `batched_download` call: its
module imports `UnpaywallClient` from `.clients` (downloader.py line 20),
a name `clients.py` does not define, so the import itself fails; granting
the import, `UnpaywallClient()` at line 209 raises `NameError`, which the
`except ValueError` handler at line 210 does not catch, before the second
record check, the delay floor at line 244 and the `batched_download` call
at line 259 (which would additionally pass an `unpaywall_client` keyword
absent from `batched_download`'s signature, clients.py lines 810-823).
`download_from_savedrecs_plan` models the staged behaviour: the
empty-iterator early exit of lines 148-153, else the unconditional raise.
`download_from_savedrecs_plan_intended` is the rest of the function's code
(lines 155-205 and 213-266) as written — unreachable, but the evident
intent of the delay-floor logic at lines 244-250: its result is the
argument package of the `batched_download` call, or `none` when the
function returns an empty iterator instead. -/

def DEFAULT_DELAY_SECONDS : ℚ := 3 / 2

/-- Which provider credentials are present in the environment, i.e. whether
each client constructor succeeds. -/
structure CredsConfig where
  wiley : Bool
  elsevier : Bool
  springer : Bool
  crossref : Bool
  openalex : Bool
deriving DecidableEq, Repr

/-- `downloader.py:records_from_dois`. -/
def records_from_dois (dois : List String) : List ArticleRecord :=
  dois.filterMap fun doi =>
    match classify_publisher doi with
    | none => none
    | some publisher =>
      some { title := "DOI " ++ doi, doi := some doi, publisher := some publisher }

/-- The loop of `downloader.py:_limit_records_per_publisher`, with the
per-publisher counts as an association list. -/
def limitAux (maxPer : Nat) :
    List ArticleRecord → List (String × Nat) → List ArticleRecord
  | [], _ => []
  | r :: rs, counts =>
    let key := lowerString (r.publisher.getD "")
    let c := (counts.find? (fun e => e.1 = key)).map (·.2) |>.getD 0
    if maxPer ≤ c then limitAux maxPer rs counts
    else
      r :: limitAux maxPer rs
        ((key, c + 1) :: counts.filter (fun e => ¬ e.1 = key))

/-- `downloader.py:_limit_records_per_publisher`. -/
def limit_records_per_publisher (records : List ArticleRecord)
    (maxPer : Nat) : List ArticleRecord :=
  limitAux maxPer records []

def hasRecordsFor (records : List ArticleRecord) (name : String) : Bool :=
  records.any (fun r => r.publisher = some name)

/-- One premium-publisher client-construction step of
`download_from_savedrecs`: construct the client only if records for the
publisher exist; on a construction failure, disable the publisher by
filtering its records out.  Returns (records, client constructed). -/
def clientStep (records : List ArticleRecord) (name : String) (cred : Bool) :
    List ArticleRecord × Bool :=
  if hasRecordsFor records name then
    if cred then (records, true)
    else (records.filter (fun r => ¬ r.publisher = some name), false)
  else (records, false)

/-- The argument package of the `batched_download` call made by
`download_from_savedrecs`. -/
structure BatchPlan where
  records : List ArticleRecord
  cfg : BatchConfig
deriving DecidableEq, Repr

/-- `download_from_savedrecs` from record construction onward, as staged
(downloader.py:145-266).  With no eligible records, lines 148-153 return the
empty iterator (`.ok none`).  Any run past that check constructs the premium
clients (lines 155-205, which can only disable publishers, never raise out
of the function) and then executes `unpaywall_client = UnpaywallClient()`
at line 209: `clients.py` defines no `UnpaywallClient` (the import of that
name at downloader.py:20 already fails the same way), and the handler at
line 210 catches only `ValueError`, so the stage raises unconditionally —
modelled as `PyError.otherError` — before the delay floor at line 244 and
the `batched_download` call at line 259. -/
def download_from_savedrecs_plan (dois : List String) (delay_seconds : ℚ)
    (maxPer : Option Nat) (overwrite dry_run : Bool) (creds : CredsConfig) :
    Except PyError (Option BatchPlan) :=
  let records0 := records_from_dois dois
  let records1 :=
    match maxPer with
    | some m => limit_records_per_publisher records0 m
    | none => records0
  if records1 = [] then .ok none
  else .error .otherError

/-- The rest of `download_from_savedrecs` as written in the source (lines
155-205 and 213-266): client construction with publisher disabling, the
post-configuration empty check, the dry-run exit, the delay floor of line
244 and the argument package of the `batched_download` call.  As staged this
code is unreachable (the `NameError` of `download_from_savedrecs_plan`
precedes it); it is the evident intent of the spec's delay-floor sentence.
`none` models the empty-iterator early exits (no eligible records, none
left after configuration checks, dry run). -/
def download_from_savedrecs_plan_intended (dois : List String)
    (delay_seconds : ℚ)
    (maxPer : Option Nat) (overwrite dry_run : Bool) (creds : CredsConfig) :
    Option BatchPlan :=
  let records0 := records_from_dois dois
  let records1 :=
    match maxPer with
    | some m => limit_records_per_publisher records0 m
    | none => records0
  if records1 = [] then none
  else
    let stepW := clientStep records1 "Wiley" creds.wiley
    let records2 := stepW.1
    let hasWiley := stepW.2
    let stepE := clientStep records2 "Elsevier" creds.elsevier
    let records3 := stepE.1
    let hasElsevier := stepE.2
    let stepS := clientStep records3 "Springer" creds.springer
    let records4 := stepS.1
    let hasSpringer := stepS.2
    let crossrefEligible := hasRecordsFor records4 "Crossref"
    let hasCrossref := crossrefEligible && creds.crossref
    let hasOpenalex := crossrefEligible && creds.openalex
    let records5 :=
      if crossrefEligible ∧ ¬ hasCrossref ∧ ¬ hasOpenalex then
        records4.filter (fun r => ¬ r.publisher = some "Crossref")
      else records4
    if records5 = [] then none
    else if dry_run then none
    else
      some
        { records := records5,
          cfg :=
            { hasElsevier := hasElsevier, hasCrossref := hasCrossref,
              hasOpenalex := hasOpenalex, hasSpringer := hasSpringer,
              hasWiley := hasWiley, overwrite := overwrite,
              delay_seconds := some (max delay_seconds 1),
              raise_on_error := false, metricsOn := true } }

/-! ## Resilience layer (checkpoint / resume)

The repository source under `src/` contains no checkpoint implementation;
the resilience layer exists only in the specification.  It is therefore
modelled from the spec. -/

/-- Modelled from the spec: the persisted checkpoint record (`§3`,
"`{last_completed_index, timestamp, total_dois, run_window}`"); only the
fields the resume computation reads are kept. -/
structure Checkpoint where
  last_completed_index : Nat
  total_dois : Nat
deriving DecidableEq, Repr

/-- Modelled from the spec: "Resume mode reads the checkpoint's last
completed index and begins at the next index; if the checkpoint is
unreadable, resumption falls back to index 0 with a warning".  An unreadable
checkpoint is `none`. -/
def resume_start_index : Option Checkpoint → Nat
  | some cp => cp.last_completed_index + 1
  | none => 0

/-- Modelled from the spec: a resumed run processes the input records from
the resume start index onwards. -/
def resumed_records (records : List α) (cp : Option Checkpoint) : List α :=
  records.drop (resume_start_index cp)

/-- A concrete filesystem holding the destination file, for the C4
counterexample and witness. -/
def fsWithPdf : FS :=
  ⟨["10.1002_x"], [(("10.1002_x", "10.1002_x.pdf"), [1, 2, 3])]⟩

/-- A concrete Crossref network environment (its content is irrelevant to
the guard paths exercised). -/
def cenv0 : CrossrefEnv :=
  ⟨.error "unused", none, fun _ => ⟨200, [], ""⟩⟩

/-- The observable provider of a `call` event. -/
def evCall : BEvent → Option Provider
  | .call p => some p
  | _ => none

/-- Well-formedness facts about the result of one loop-body `try:` block,
used across the orchestration claims: the body emits no sleep or failure
events (those belong to the loop epilogue and exception handler), emits a
skip marker exactly when it requests a `continue`, yields a primary PDF
whenever it records one as downloaded, keeps every yielded primary PDF (and
its directory) present on the filesystem, and never leaves a
cleanup-visited directory both existing and empty. -/
def BodyWF (b : BodyOut) : Prop :=
  BEvent.slept ∉ b.events
  ∧ (∀ i, BEvent.failed i ∉ b.events)
  ∧ ((∃ dd, BEvent.skipped dd ∈ b.events) ↔ b.skip = true)
  ∧ (b.pdfDownloaded = true → ∃ d n, BEvent.yieldPdf d n ∈ b.events)
  ∧ (∀ d n, BEvent.yieldPdf d n ∈ b.events →
      fsHasFile b.fs (d, n) = true ∧ fsHasDir b.fs d = true)
  ∧ (∀ dname, BEvent.cleanup dname ∈ b.events →
      ¬ (fsHasDir b.fs dname = true ∧ fsDirEmpty b.fs dname = true))

/-- Invariant of the Crossref-branch chain loop, relative to the record's
sanitized identifier `fname`. -/
def CInv (fname : String) (c : ChainState) : Prop :=
  BEvent.slept ∉ c.events
  ∧ (∀ i, BEvent.failed i ∉ c.events)
  ∧ (∀ dd, BEvent.skipped dd ∉ c.events)
  ∧ (∀ dname, BEvent.cleanup dname ∉ c.events)
  ∧ (c.pdfDownloaded = true →
      BEvent.yieldPdf fname (fname ++ ".pdf") ∈ c.events)
  ∧ (∀ d n, BEvent.yieldPdf d n ∈ c.events → d = fname ∧ n = fname ++ ".pdf")
  ∧ (BEvent.yieldPdf fname (fname ++ ".pdf") ∈ c.events →
      fsHasFile c.fs (fname, fname ++ ".pdf") = true
      ∧ fsHasDir c.fs fname = true)

/-- Concrete sample values used by witnesses and counterexamples. -/
def sampleSt : BatchState := ⟨[], ⟨[], []⟩, [], 0, []⟩

def sampleEnvOk : RecordEnv :=
  ⟨.ok [1], .ok [1], .ok [1], .ok [1], .ok [1], fun _ => .saved []⟩

def sampleRecWiley : ArticleRecord :=
  { title := "DOI 10.1002/z", doi := some "10.1002/z",
    publisher := some "Wiley" }

def sampleRecSpringer : ArticleRecord :=
  { title := "DOI 10.1007/x", doi := some "10.1007/x",
    publisher := some "Springer" }

def sampleRecCrossref : ArticleRecord :=
  { title := "DOI 10.5555/y", doi := some "10.5555/y",
    publisher := some "Crossref" }

def sampleCfg : BatchConfig :=
  ⟨true, true, true, true, true, false, some 1, false, true⟩

def sampleEnvWall : RecordEnv :=
  { sampleEnvOk with
    springer := .errDL "Springer metadata not found for DOI 10.1007/x" }

/-- An environment whose supplement stage raises after a successful primary
download. -/
def sampleEnvSupplRaise : RecordEnv :=
  { sampleEnvOk with suppl := fun _ => SupplOutcome.raises }

/-! # Theorems -/

/-! ## Claim C3: publisher classification is total -/

/-- C3: publisher classification is a total function on DOI strings: every
DOI yields a non-null, non-empty label; the lower-cased DOI is tested
against the premium prefix tables (`10.1002 ↦ Wiley`, `10.1016 ↦ Elsevier`),
and a DOI matching no known premium prefix is classified `"Crossref"`
rather than dropped. -/
theorem classify_publisher_total :
    (∀ doi : String, ∃ label, classify_publisher doi = some label ∧ label ≠ "")
    ∧ classify_publisher "10.1002/abc" = some "Wiley"
    ∧ classify_publisher "10.1016/x" = some "Elsevier"
    ∧ classify_publisher "10.5555/y" = some "Crossref"
    ∧ ∀ doi : String,
        (∀ p ∈ WILEY_PREFIXES ++ ELSEVIER_PREFIXES ++ SPRINGER_PREFIXES,
          startsWithStr (lowerString doi) p = false) →
        classify_publisher doi = some "Crossref" := by
  refine ⟨?_, by decide, by decide, by decide, ?_⟩
  · intro doi
    unfold classify_publisher
    split_ifs <;> exact ⟨_, rfl, by decide⟩
  · intro doi h
    have hany : ∀ l : List String,
        (∀ p ∈ l, p ∈ WILEY_PREFIXES ++ ELSEVIER_PREFIXES ++ SPRINGER_PREFIXES) →
        l.any (fun p => startsWithStr (lowerString doi) p) = false := by
      intro l hl
      simp only [List.any_eq_false]
      intro p hp
      simp [h p (hl p hp)]
    unfold classify_publisher
    rw [if_neg, if_neg, if_neg]
    · simp [hany SPRINGER_PREFIXES (by intro p hp; simp [hp, WILEY_PREFIXES,
        ELSEVIER_PREFIXES, SPRINGER_PREFIXES] at hp ⊢; tauto)]
    · simp [hany ELSEVIER_PREFIXES (by intro p hp; simp [hp, WILEY_PREFIXES,
        ELSEVIER_PREFIXES, SPRINGER_PREFIXES] at hp ⊢; tauto)]
    · simp [hany WILEY_PREFIXES (by intro p hp; simp [hp, WILEY_PREFIXES,
        ELSEVIER_PREFIXES, SPRINGER_PREFIXES] at hp ⊢; tauto)]

/-- Witness for C3 at concrete inputs. -/
theorem classify_publisher_total_witness :
    (∃ label, classify_publisher "10.31181/w" = some label ∧ label ≠ "")
    ∧ classify_publisher "10.9999/z" = some "Crossref" :=
  ⟨classify_publisher_total.1 "10.31181/w",
   classify_publisher_total.2.2.2.2 "10.9999/z" (by decide)⟩

/-! ## Claim C9: resume correctness (spec-modelled) -/

/-- C9: a checkpoint recording `last_completed_index = k` makes the resumed
run process exactly the records at indices `k+1 ..` (element `j` of the
resumed list is element `k+1+j` of the input), and an unreadable checkpoint
restarts at index 0. -/
theorem resume_correct {α : Type} (records : List α) (cp : Checkpoint) :
    (∀ j : Nat, (resumed_records records (some cp))[j]? =
        records[cp.last_completed_index + 1 + j]?)
    ∧ (resumed_records records (some cp)).length =
        records.length - (cp.last_completed_index + 1)
    ∧ resumed_records records none = records := by
  refine ⟨?_, ?_, ?_⟩
  · intro j
    simp [resumed_records, resume_start_index, List.getElem?_drop]
  · simp [resumed_records, resume_start_index]
  · simp [resumed_records, resume_start_index]

/-! ## Claim C2: DOI extraction -/

theorem dedupFirst_sublist : ∀ l, List.Sublist (dedupFirst l) l
  | [] => by simp [dedupFirst]
  | a :: l => by
    rw [dedupFirst]
    exact ((dedupFirst_sublist _).trans (List.filter_sublist _)).cons₂ a
termination_by l => l.length
decreasing_by
  simp only [List.length_cons]
  exact Nat.lt_succ_of_le (List.length_filter_le _ _)

theorem dedupFirst_nodup : ∀ l, (dedupFirst l).Nodup
  | [] => by simp [dedupFirst]
  | a :: l => by
    rw [dedupFirst]
    refine List.nodup_cons.mpr ⟨fun hmem => ?_, dedupFirst_nodup _⟩
    have := (dedupFirst_sublist _).subset hmem
    simp at this
termination_by l => l.length
decreasing_by
  simp only [List.length_cons]
  exact Nat.lt_succ_of_le (List.length_filter_le _ _)

theorem filter_notmem_cons (l : List (List Char)) (a : List Char)
    (seen : List (List Char)) :
    (l.filter (fun c => ¬ c ∈ seen)).filter (fun x => ¬ x = a) =
      l.filter (fun c => ¬ c ∈ a :: seen) := by
  rw [List.filter_filter]
  apply List.filter_congr
  intro x _
  by_cases hx1 : x = a <;> by_cases hx2 : x ∈ seen <;> simp [hx1, hx2]

theorem extract_dois_aux_eq (ts : List (List Char)) :
    ∀ seen, extract_dois_aux ts seen =
      dedupFirst (((ts.map cleanCandidate).filter (fun c => ¬ c = [])).filter
        (fun c => ¬ c ∈ seen)) := by
  induction ts with
  | nil => intro seen; simp [extract_dois_aux, dedupFirst]
  | cons t ts ih =>
    intro seen
    by_cases h1 : cleanCandidate t = []
    · simp [extract_dois_aux, h1, ih seen]
    · by_cases h2 : cleanCandidate t ∈ seen
      · simp [extract_dois_aux, h1, h2, ih seen]
      · rw [show extract_dois_aux (t :: ts) seen =
              cleanCandidate t :: extract_dois_aux ts (cleanCandidate t :: seen) by
            simp [extract_dois_aux, h1, h2]]
        rw [show ((((t :: ts).map cleanCandidate).filter
              (fun c => ¬ c = [])).filter (fun c => ¬ c ∈ seen)) =
            cleanCandidate t ::
              (((ts.map cleanCandidate).filter (fun c => ¬ c = [])).filter
                (fun c => ¬ c ∈ seen)) by
          simp [List.filter_cons, h1, h2]]
        rw [dedupFirst, ih (cleanCandidate t :: seen), filter_notmem_cons]

theorem head?_dropWhile_false {p : Char → Bool} :
    ∀ (l : List Char) (c : Char), (l.dropWhile p).head? = some c → p c = false := by
  intro l
  induction l with
  | nil => simp [List.dropWhile]
  | cons a t ih =>
    intro c h
    by_cases hp : p a
    · rw [List.dropWhile_cons_of_pos hp] at h
      exact ih c h
    · rw [List.dropWhile_cons_of_neg hp] at h
      simp only [List.head?_cons, Option.some_inj] at h
      subst h
      exact Bool.not_eq_true _ ▸ hp

theorem cleanCandidate_last (tok : List Char) (c : Char)
    (h : (cleanCandidate tok).getLast? = some c) : 32 ≤ c.toNat := by
  unfold cleanCandidate trimTrailingControl at h
  rw [List.getLast?_reverse] at h
  have := head?_dropWhile_false _ c h
  simp only [decide_eq_false_iff_not, not_lt] at this
  exact this

/-- C2: DOI extraction returns a finite ordered sequence with no duplicate
entries, equal to the first-occurrence deduplication of the cleaned regex
matches (hence preserving first-occurrence order: it is a sublist of the
match sequence), and no output token is empty or ends in a character with
code below 32. -/
theorem extract_dois_spec (text : List Char) :
    extract_dois text =
      dedupFirst (((findTokens text).map cleanCandidate).filter
        (fun c => ¬ c = []))
    ∧ (extract_dois text).Nodup
    ∧ List.Sublist (extract_dois text)
        (((findTokens text).map cleanCandidate).filter (fun c => ¬ c = []))
    ∧ ∀ tok ∈ extract_dois text, ¬ tok = [] ∧
        ∀ c, tok.getLast? = some c → 32 ≤ c.toNat := by
  have he : extract_dois text =
      dedupFirst (((findTokens text).map cleanCandidate).filter
        (fun c => ¬ c = [])) := by
    unfold extract_dois
    rw [extract_dois_aux_eq]
    congr 1
    apply List.filter_eq_self.mpr
    intro x _
    simp
  refine ⟨he, ?_, ?_, ?_⟩
  · rw [he]; exact dedupFirst_nodup _
  · rw [he]; exact dedupFirst_sublist _
  · intro tok hmem
    rw [he] at hmem
    have hmem2 := (dedupFirst_sublist _).subset hmem
    obtain ⟨hmm, hne⟩ := List.mem_filter.mp hmem2
    refine ⟨by simpa using hne, ?_⟩
    obtain ⟨t, _, rfl⟩ := List.mem_map.mp hmm
    exact fun c h => cleanCandidate_last t c h

/-- Witness for C2 on a concrete input with a duplicate DOI and a trailing
control character. -/
theorem extract_dois_spec_witness :
    (extract_dois "x 10.1002/ab\r\n10.1016/cd 10.1002/ab".data).Nodup
    ∧ 32 ≤ 'b'.toNat :=
  ⟨(extract_dois_spec _).2.1,
   ((extract_dois_spec "x 10.1002/ab\r\n10.1016/cd 10.1002/ab".data).2.2.2
      "10.1002/ab".data (by decide)).2 'b' (by decide)⟩

/-! ## Claim C10: the inter-record delay floor -/

/-- C10 (code bug): the delay floor of `downloader.py:244-250` is dead
code.  First conjunct: for every input, `download_from_savedrecs` as staged
never reaches its `batched_download` call — it either takes the
empty-iterator early exit or raises on the undefined `UnpaywallClient`
before the floor — so no delay of any value is ever passed on.  Second
conjunct: the unreachable remainder as written does enforce the claim:
every plan it would build carries exactly `max(delay_seconds, 1.0)`, never
below one second and never below the caller's request. -/
theorem savedrecs_delay_floor (dois : List String) (delay : ℚ)
    (maxPer : Option Nat) (ov dr : Bool) (creds : CredsConfig) :
    (∀ p, ¬ download_from_savedrecs_plan dois delay maxPer ov dr creds =
      .ok (some p))
    ∧ ∀ plan,
        download_from_savedrecs_plan_intended dois delay maxPer ov dr creds =
          some plan →
        plan.cfg.delay_seconds = some (max delay 1)
        ∧ ∀ d, plan.cfg.delay_seconds = some d → 1 ≤ d ∧ delay ≤ d := by
  constructor
  · intro p h
    unfold download_from_savedrecs_plan at h
    simp only [] at h
    split at h
    · exact Option.noConfusion (Except.ok.inj h)
    · exact Except.noConfusion h
  · intro plan h
    have hplan : plan.cfg.delay_seconds = some (max delay 1) := by
      unfold download_from_savedrecs_plan_intended at h
      simp only [] at h
      repeat' split at h
      all_goals first
        | exact Option.noConfusion h
        | (have h2 := Option.some.inj h; subst h2; rfl)
    refine ⟨hplan, fun d hd => ?_⟩
    rw [hplan] at hd
    cases hd
    exact ⟨le_max_right _ _, le_max_left _ _⟩

/-- Witness for C10: a single Wiley DOI with credentials present and a
requested delay of 0 makes the staged function raise (the `NameError` of
the undefined `UnpaywallClient`), while the unreachable remainder would
have built a plan whose delay is `max 0 1 = 1`. -/
theorem savedrecs_delay_floor_witness :
    (download_from_savedrecs_plan ["10.1002/a"] 0 none false false
        ⟨true, false, false, false, false⟩ = .error .otherError)
    ∧ (download_from_savedrecs_plan_intended ["10.1002/a"] 0 none false false
        ⟨true, false, false, false, false⟩ = some
      { records := [{ title := "DOI 10.1002/a", doi := some "10.1002/a",
                      publisher := some "Wiley" }],
        cfg := { hasElsevier := false, hasCrossref := false,
                 hasOpenalex := false, hasSpringer := false, hasWiley := true,
                 overwrite := false, delay_seconds := some 1,
                 raise_on_error := false, metricsOn := true } })
    ∧ (1 : ℚ) ≤ 1 ∧ (0 : ℚ) ≤ 1 :=
  ⟨rfl,
   by decide,
   ((savedrecs_delay_floor ["10.1002/a"] 0 none false false
      ⟨true, false, false, false, false⟩).2
      { records := [{ title := "DOI 10.1002/a", doi := some "10.1002/a",
                      publisher := some "Wiley" }],
        cfg := { hasElsevier := false, hasCrossref := false,
                 hasOpenalex := false, hasSpringer := false, hasWiley := true,
                 overwrite := false, delay_seconds := some 1,
                 raise_on_error := false, metricsOn := true } }
      (by decide)).2 1 rfl⟩

/-! ## Claim C4: `download_pdf` idempotence on an existing destination -/

/-- C4 counterexample: the claim fails as stated for `CrossrefClient`.
With an empty DOI, an existing destination and no overwrite request, the
call raises `ValueError` instead of returning the existing path, because
the empty-DOI guard precedes the existing-file guard. -/
theorem crossref_empty_doi_not_idempotent :
    fsHasFile fsWithPdf ("10.1002_x", "10.1002_x.pdf") = true
    ∧ (crossref_download_pdf none "" ("10.1002_x", "10.1002_x.pdf") false
        fsWithPdf cenv0).result =
      .error (.valueError "CrossrefClient.download_pdf requires a DOI.") := by
  exact ⟨by decide, rfl⟩

/-- C4 (amended): for every call with the client's required identifier
present (any DOI for Wiley, a non-empty DOI for Crossref), if the
destination exists and overwrite is not requested, `download_pdf` returns
the existing destination with zero network requests and an unchanged
filesystem. -/
theorem download_pdf_idempotent :
    (∀ (doi : String) (dest : String × String) (fs : FS) (resp : HttpResponse),
      fsHasFile fs dest = true →
      wiley_download_pdf doi dest false fs resp = ⟨.ok dest, fs, 0⟩)
    ∧ ∀ (sl : Option (List String)) (doi : String) (dest : String × String)
        (fs : FS) (env : CrossrefEnv),
      ¬ doi = "" → fsHasFile fs dest = true →
      crossref_download_pdf sl doi dest false fs env = ⟨.ok dest, fs, 0⟩ := by
  constructor
  · intro doi dest fs resp h1
    unfold wiley_download_pdf
    rw [if_pos ⟨h1, by simp⟩]
  · intro sl doi dest fs env h0 h1
    unfold crossref_download_pdf
    rw [if_neg h0, if_pos ⟨h1, by simp⟩]

/-- Witness for C4 at a concrete existing destination. -/
theorem download_pdf_idempotent_witness :
    wiley_download_pdf "10.1002/x" ("10.1002_x", "10.1002_x.pdf") false
        fsWithPdf ⟨404, [], "err"⟩ =
      ⟨.ok ("10.1002_x", "10.1002_x.pdf"), fsWithPdf, 0⟩
    ∧ crossref_download_pdf none "10.1002/x" ("10.1002_x", "10.1002_x.pdf")
        false fsWithPdf cenv0 =
      ⟨.ok ("10.1002_x", "10.1002_x.pdf"), fsWithPdf, 0⟩ :=
  ⟨download_pdf_idempotent.1 "10.1002/x" _ fsWithPdf _ (by decide),
   download_pdf_idempotent.2 none "10.1002/x" _ fsWithPdf cenv0 (by decide)
     (by decide)⟩

/-! ## Helper lemmas on the filesystem model -/

theorem fsWrite_dirs (fs : FS) (k : String × String) (v : List Nat) :
    (fsWrite fs k v).dirs = fs.dirs := rfl

theorem fsAddDir_files (fs : FS) (d : String) :
    (fsAddDir fs d).files = fs.files := by
  unfold fsAddDir; split <;> rfl

theorem fsHasFile_fsAddDir (fs : FS) (d : String) (k : String × String) :
    fsHasFile (fsAddDir fs d) k = fsHasFile fs k := by
  unfold fsHasFile
  rw [fsAddDir_files]

theorem fsHasDir_fsAddDir_self (fs : FS) (d : String) :
    fsHasDir (fsAddDir fs d) d = true := by
  unfold fsHasDir fsAddDir
  split
  · assumption
  · simp

theorem fsHasDir_fsWrite (fs : FS) (k : String × String) (v : List Nat)
    (d : String) : fsHasDir (fsWrite fs k v) d = fsHasDir fs d := rfl

theorem fsHasFile_fsWrite_self (fs : FS) (k : String × String) (v : List Nat) :
    fsHasFile (fsWrite fs k v) k = true := by
  simp [fsHasFile, fsWrite, List.find?]

theorem fsHasFile_iff (fs : FS) (k : String × String) :
    fsHasFile fs k = true ↔ ∃ v, (k, v) ∈ fs.files := by
  unfold fsHasFile
  rw [List.find?_isSome]
  constructor
  · rintro ⟨⟨k', v⟩, hmem, hk⟩
    simp only [decide_eq_true_eq] at hk
    exact ⟨v, by rwa [show k' = k from hk] at hmem⟩
  · rintro ⟨v, hmem⟩
    exact ⟨(k, v), hmem, by simp⟩

theorem fsHasFile_fsWrite_mono (fs : FS) (k k' : String × String)
    (v : List Nat) (h : fsHasFile fs k' = true) :
    fsHasFile (fsWrite fs k v) k' = true := by
  by_cases hk : k' = k
  · subst hk; exact fsHasFile_fsWrite_self fs k' v
  · rw [fsHasFile_iff] at h ⊢
    obtain ⟨w, hw⟩ := h
    refine ⟨w, ?_⟩
    simp only [fsWrite, List.mem_cons, List.mem_filter]
    exact Or.inr ⟨hw, by simpa using hk⟩

theorem cleanupDir_files (fs : FS) (d : String) :
    (cleanupDir fs d).files = fs.files := by
  unfold cleanupDir; split <;> rfl

theorem fsHasFile_cleanupDir (fs : FS) (d : String) (k : String × String) :
    fsHasFile (cleanupDir fs d) k = fsHasFile fs k := by
  unfold fsHasFile
  rw [cleanupDir_files]

theorem cleanupDir_not_empty_dir (fs : FS) (d : String) :
    ¬ (fsHasDir (cleanupDir fs d) d = true ∧ fsDirEmpty (cleanupDir fs d) d = true) := by
  rintro ⟨h1, h2⟩
  unfold cleanupDir at h1 h2
  by_cases hc : fsHasDir fs d = true ∧ fsDirEmpty fs d = true
  · rw [if_pos hc] at h1
    unfold fsHasDir at h1
    simp only [List.elem_eq_mem, decide_eq_true_eq, List.mem_filter] at h1
    simp at h1
  · rw [if_neg hc] at h1 h2
    exact hc ⟨h1, h2⟩

theorem fsHasDir_cleanupDir_of_file (fs : FS) (d c : String)
    (k : String × String) (hk : k.1 = c) (hf : fsHasFile fs k = true)
    (hd : fsHasDir fs c = true) : fsHasDir (cleanupDir fs d) c = true := by
  unfold cleanupDir
  split
  · rename_i hcond
    by_cases hdc : c = d
    · subst hdc
      exfalso
      have := hcond.2
      unfold fsDirEmpty at this
      rw [fsHasFile_iff] at hf
      obtain ⟨v, hv⟩ := hf
      rw [List.all_eq_true] at this
      have := this (k, v) hv
      simp [hk] at this
    · unfold fsHasDir at hd ⊢
      simp only [List.elem_eq_mem, decide_eq_true_eq, List.mem_filter] at hd ⊢
      exact ⟨hd, hdc⟩
  · exact hd

theorem runSuppl_hasFile (out : SupplOutcome) (fs : FS) (dir : String)
    (fs' : FS) (names : List String) (k : String × String)
    (h : runSuppl out fs dir = .ok (fs', names))
    (hf : fsHasFile fs k = true) : fsHasFile fs' k = true := by
  unfold runSuppl at h
  cases out with
  | raises => exact absurd h (by simp)
  | saved ns =>
    simp only [Except.ok.injEq, Prod.mk.injEq] at h
    obtain ⟨hfs, -⟩ := h
    subst hfs
    induction ns generalizing fs with
    | nil => exact hf
    | cons n ns ih => exact ih _ (fsHasFile_fsWrite_mono _ _ _ _ hf)

theorem runSuppl_dirs (out : SupplOutcome) (fs : FS) (dir : String)
    (fs' : FS) (names : List String)
    (h : runSuppl out fs dir = .ok (fs', names)) : fs'.dirs = fs.dirs := by
  unfold runSuppl at h
  cases out with
  | raises => exact absurd h (by simp)
  | saved ns =>
    simp only [Except.ok.injEq, Prod.mk.injEq] at h
    obtain ⟨hfs, -⟩ := h
    subst hfs
    induction ns generalizing fs with
    | nil => rfl
    | cons n ns ih => exact (ih _).trans rfl

/-! ## Freshness lemmas: a record whose article directory holds no files -/

theorem article_destination_fresh (fs : FS) (fname base : String)
    (hfile : ∀ n, fsHasFile fs (fname, n) = false) :
    article_destination fs fname base =
      (fsAddDir fs fname, (fname, base ++ ".pdf")) := by
  unfold article_destination
  simp only []
  rw [if_neg]
  rintro ⟨h1, -⟩
  rw [fsHasFile_fsAddDir] at h1
  rw [hfile "article.pdf"] at h1
  exact Bool.noConfusion h1

theorem runAttempt_fresh (ov : Bool) (out : AttemptOutcome) (fs : FS)
    (dest : String × String) (h : fsHasFile fs dest = false) :
    runAttempt ov out fs dest =
      match out with
      | .ok bytes => .ok (fsWrite fs dest bytes)
      | .errDL msg => .error (.downloadError msg)
      | .errOther => .error .otherError := by
  unfold runAttempt
  rw [if_neg]
  rintro ⟨h1, -⟩
  rw [h] at h1
  exact Bool.noConfusion h1

/-! ## Branch dispatch lemmas -/

theorem recordBody_springer (cfg : BatchConfig) (env : RecordEnv)
    (rec : ArticleRecord) (fs : FS) (h : rec.publisher = some "Springer") :
    recordBody cfg env rec fs = springerBranch cfg env rec fs := by
  unfold recordBody
  rw [h]
  simp only [Option.getD_some]
  rw [if_neg (by decide), if_neg (by decide), if_pos (by decide)]

theorem recordBody_crossref (cfg : BatchConfig) (env : RecordEnv)
    (rec : ArticleRecord) (fs : FS) (h : rec.publisher = some "Crossref") :
    recordBody cfg env rec fs = crossrefBranch cfg env rec fs := by
  unfold recordBody
  rw [h]
  simp only [Option.getD_some]
  rw [if_neg (by decide), if_neg (by decide), if_neg (by decide),
    if_pos (by decide)]

theorem recordBody_wiley (cfg : BatchConfig) (env : RecordEnv)
    (rec : ArticleRecord) (fs : FS) (h : rec.publisher = some "Wiley") :
    recordBody cfg env rec fs = wileyBranch cfg env rec fs := by
  unfold recordBody
  rw [h]
  simp only [Option.getD_some]
  rw [if_neg (by decide), if_pos (by decide)]

theorem fsRename_dirs (fs : FS) (o n : String × String) :
    (fsRename fs o n).dirs = fs.dirs := by
  unfold fsRename
  cases fsLookup fs o <;> rfl

theorem fsHasDir_congr (fs1 fs2 : FS) (h : fs1.dirs = fs2.dirs) (d : String) :
    fsHasDir fs1 d = fsHasDir fs2 d := by
  unfold fsHasDir
  rw [h]

theorem article_destination_snd (fs : FS) (dirName base : String) :
    (article_destination fs dirName base).2 = (dirName, base ++ ".pdf") := rfl

theorem article_destination_hasDir (fs : FS) (dirName base : String) :
    fsHasDir (article_destination fs dirName base).1 dirName = true := by
  unfold article_destination
  simp only []
  split
  · rw [fsHasDir_congr _ (fsAddDir fs dirName) (fsRename_dirs _ _ _)]
    exact fsHasDir_fsAddDir_self fs dirName
  · exact fsHasDir_fsAddDir_self fs dirName

theorem runAttempt_ok (ov : Bool) (out : AttemptOutcome) (fs : FS)
    (dest : String × String) (fs' : FS)
    (h : runAttempt ov out fs dest = .ok fs') :
    fsHasFile fs' dest = true ∧ fs'.dirs = fs.dirs := by
  unfold runAttempt at h
  split at h
  · rename_i hguard
    cases h
    exact ⟨hguard.1, rfl⟩
  · cases out with
    | ok bytes =>
      simp only [Except.ok.injEq] at h
      subst h
      exact ⟨fsHasFile_fsWrite_self _ _ _, rfl⟩
    | errDL msg => exact absurd h (by simp)
    | errOther => exact absurd h (by simp)

/-! ## Event and state classification of the loop-body branches -/

theorem primaryThenSuppl_wf (ov : Bool) (p : Provider) (out : AttemptOutcome)
    (so : SupplOutcome) (ws : Bool) (fs : FS) (dest : String × String)
    (hdir : fsHasDir fs dest.1 = true) :
    BEvent.slept ∉ (primaryThenSuppl ov p out so ws fs dest).events
    ∧ (∀ i, BEvent.failed i ∉ (primaryThenSuppl ov p out so ws fs dest).events)
    ∧ (∀ dd, BEvent.skipped dd ∉ (primaryThenSuppl ov p out so ws fs dest).events)
    ∧ (primaryThenSuppl ov p out so ws fs dest).skip = false
    ∧ ((primaryThenSuppl ov p out so ws fs dest).pdfDownloaded = true →
        BEvent.yieldPdf dest.1 dest.2 ∈ (primaryThenSuppl ov p out so ws fs dest).events)
    ∧ (∀ dir name,
        BEvent.yieldPdf dir name ∈ (primaryThenSuppl ov p out so ws fs dest).events →
        fsHasFile (primaryThenSuppl ov p out so ws fs dest).fs (dir, name) = true
        ∧ fsHasDir (primaryThenSuppl ov p out so ws fs dest).fs dir = true)
    ∧ (∀ dname, BEvent.cleanup dname ∉ (primaryThenSuppl ov p out so ws fs dest).events) := by
  unfold primaryThenSuppl
  cases hra : runAttempt ov out fs dest with
  | error e =>
    refine ⟨by simp, by simp, by simp, rfl, by simp, ?_, by simp⟩
    intro dir name hmem
    simp at hmem
  | ok fs2 =>
    obtain ⟨hfile2, hdirs2⟩ := runAttempt_ok ov out fs dest fs2 hra
    simp only []
    by_cases hws : ws
    · rw [if_pos hws]
      cases hrs : runSuppl so fs2 dest.1 with
      | error e =>
        refine ⟨by simp, by simp, by simp, rfl, by simp, ?_, by simp⟩
        intro dir name hmem
        simp at hmem
        obtain ⟨h1, h2⟩ := hmem
        subst h1; subst h2
        exact ⟨hfile2, by rw [fsHasDir_congr fs2 fs hdirs2]; exact hdir⟩
      | ok r =>
        obtain ⟨fs3, names⟩ := r
        have hf3 := fun k hk => runSuppl_hasFile so fs2 dest.1 fs3 names k hrs hk
        have hd3 := runSuppl_dirs so fs2 dest.1 fs3 names hrs
        refine ⟨by simp, by simp, by simp, rfl, by simp, ?_, by simp⟩
        intro dir name hmem
        simp at hmem
        obtain ⟨h1, h2⟩ := hmem
        subst h1; subst h2
        refine ⟨hf3 _ hfile2, ?_⟩
        rw [fsHasDir_congr fs3 fs2 hd3, fsHasDir_congr fs2 fs hdirs2]
        exact hdir
    · rw [if_neg hws]
      refine ⟨by simp, by simp, by simp, rfl, by simp, ?_, by simp⟩
      intro dir name hmem
      simp at hmem
      obtain ⟨h1, h2⟩ := hmem
      subst h1; subst h2
      exact ⟨hfile2, by rw [fsHasDir_congr fs2 fs hdirs2]; exact hdir⟩

theorem article_destination_fst_dirs (fs : FS) (dirName base : String) :
    (article_destination fs dirName base).1.dirs = (fsAddDir fs dirName).dirs := by
  unfold article_destination
  simp only []
  split
  · exact fsRename_dirs _ _ _
  · rfl

theorem article_destination_preserves_dest (fs : FS) (dirName base : String)
    (h : fsHasFile fs (dirName, base ++ ".pdf") = true) :
    fsHasFile (article_destination fs dirName base).1
      (dirName, base ++ ".pdf") = true := by
  unfold article_destination
  simp only []
  rw [if_neg]
  · rwa [fsHasFile_fsAddDir]
  · rintro ⟨-, h2⟩
    rw [fsHasFile_fsAddDir] at h2
    exact h2 h

theorem primaryThenSuppl_article_wf (ov : Bool) (p : Provider)
    (out : AttemptOutcome) (so : SupplOutcome) (ws : Bool) (fs : FS)
    (f : String) :
    BodyWF (primaryThenSuppl ov p out so ws
      (article_destination fs f f).1 (article_destination fs f f).2) := by
  have P := primaryThenSuppl_wf ov p out so ws
    (article_destination fs f f).1 (article_destination fs f f).2
    (by rw [article_destination_snd]; exact article_destination_hasDir _ _ _)
  obtain ⟨P1, P2, P3, P4, P5, P6, P7⟩ := P
  refine ⟨P1, P2, ?_, ?_, P6, ?_⟩
  · constructor
    · rintro ⟨dd, h⟩; exact absurd h (P3 dd)
    · intro h; rw [P4] at h; exact absurd h (by simp)
  · intro h
    exact ⟨_, _, P5 h⟩
  · intro dname h
    exact absurd h (P7 dname)

theorem elsevierBranch_wf (cfg : BatchConfig) (env : RecordEnv)
    (rec : ArticleRecord) (fs : FS) : BodyWF (elsevierBranch cfg env rec fs) := by
  unfold elsevierBranch
  simp only []
  split_ifs
  all_goals first
    | exact primaryThenSuppl_article_wf _ _ _ _ _ _ _
    | (refine ⟨?_, ?_, ?_, ?_, ?_, ?_⟩ <;> simp)

theorem wileyBranch_wf (cfg : BatchConfig) (env : RecordEnv)
    (rec : ArticleRecord) (fs : FS) : BodyWF (wileyBranch cfg env rec fs) := by
  unfold wileyBranch
  simp only []
  split_ifs
  all_goals first
    | exact primaryThenSuppl_article_wf _ _ _ _ _ _ _
    | (refine ⟨?_, ?_, ?_, ?_, ?_, ?_⟩ <;> simp)

theorem springerBranch_wf (cfg : BatchConfig) (env : RecordEnv)
    (rec : ArticleRecord) (fs : FS) : BodyWF (springerBranch cfg env rec fs) := by
  unfold springerBranch
  split
  · exact ⟨by simp, by simp, by simp, by simp, by simp, by simp⟩
  · split
    · exact ⟨by simp, by simp, by simp, by simp, by simp, by simp⟩
    · simp only []
      cases hra : runAttempt cfg.overwrite env.springer
          (article_destination fs (safe_identifier (rec.doi.getD ""))
            (safe_identifier (rec.doi.getD ""))).1
          (article_destination fs (safe_identifier (rec.doi.getD ""))
            (safe_identifier (rec.doi.getD ""))).2 with
      | error e =>
        cases e with
        | downloadError msg =>
          simp only []
          by_cases hwall : springerWallMsg msg = true
          · rw [if_pos hwall]
            refine ⟨by simp, by simp, ?_, by simp, by simp, ?_⟩
            · simp
            · intro dname h
              simp at h
              subst h
              simpa using cleanupDir_not_empty_dir
                (article_destination fs (safe_identifier (rec.doi.getD ""))
                  (safe_identifier (rec.doi.getD ""))).1
                (safe_identifier (rec.doi.getD ""))
          · rw [if_neg hwall]
            exact ⟨by simp, by simp, by simp, by simp, by simp, by simp⟩
        | valueError msg =>
          exact ⟨by simp, by simp, by simp, by simp, by simp, by simp⟩
        | otherError =>
          exact ⟨by simp, by simp, by simp, by simp, by simp, by simp⟩
      | ok fs2 =>
        simp only []
        obtain ⟨hfile2, hdirs2⟩ := runAttempt_ok _ _ _ _ _ hra
        rw [article_destination_snd] at hfile2
        have hdir1 : fsHasDir
            (article_destination fs (safe_identifier (rec.doi.getD ""))
              (safe_identifier (rec.doi.getD ""))).1
            (safe_identifier (rec.doi.getD "")) = true :=
          article_destination_hasDir _ _ _
        cases hrs : runSuppl (env.suppl 0) fs2 (safe_identifier (rec.doi.getD "")) with
        | error e =>
          simp only []
          refine ⟨by simp, by simp, by simp, by simp, ?_, by simp⟩
          intro d n hmem
          simp [article_destination_snd] at hmem
          obtain ⟨h1, h2⟩ := hmem
          subst h1; subst h2
          exact ⟨hfile2, by rw [fsHasDir_congr fs2 _ hdirs2]; exact hdir1⟩
        | ok r =>
          obtain ⟨fs3, names⟩ := r
          simp only []
          have hf3 := fun k hk =>
            runSuppl_hasFile (env.suppl 0) fs2 _ fs3 names k hrs hk
          have hd3 := runSuppl_dirs (env.suppl 0) fs2 _ fs3 names hrs
          refine ⟨by simp, by simp, by simp, by simp, ?_, by simp⟩
          intro d n hmem
          simp [article_destination_snd] at hmem
          obtain ⟨h1, h2⟩ := hmem
          subst h1; subst h2
          refine ⟨hf3 _ hfile2, ?_⟩
          rw [fsHasDir_congr fs3 fs2 hd3, fsHasDir_congr fs2 _ hdirs2]
          exact hdir1

theorem chainBlock_CInv (ov : Bool) (p : Provider) (out : AttemptOutcome)
    (env : RecordEnv) (fname : String) (c : ChainState)
    (hc : CInv fname c) : CInv fname (chainBlock ov p out env fname c) := by
  obtain ⟨h1, h2, h3, h4, h5, h6, h7⟩ := hc
  unfold chainBlock
  simp only []
  cases hra : runAttempt ov out (article_destination c.fs fname fname).1
      (article_destination c.fs fname fname).2 with
  | error e =>
    simp only []
    refine ⟨by simp [h1], ?_, ?_, ?_, ?_, ?_, ?_⟩
    · intro i; simp [h2 i]
    · intro dd; simp [h3 dd]
    · intro dname; simp [h4 dname]
    · intro hpdf
      exact List.mem_append_left _ (h5 hpdf)
    · intro d n hmem
      rcases List.mem_append.mp hmem with h | h
      · exact h6 d n h
      · exact absurd h (by simp)
    · intro hmem
      rcases List.mem_append.mp hmem with h | h
      · obtain ⟨hf, hd⟩ := h7 h
        exact ⟨article_destination_preserves_dest _ _ _ hf,
          article_destination_hasDir _ _ _⟩
      · exact absurd h (by simp)
  | ok fs2 =>
    simp only []
    obtain ⟨hfile2, hdirs2⟩ := runAttempt_ok _ _ _ _ _ hra
    rw [article_destination_snd] at hfile2
    have hdir1 : fsHasDir (article_destination c.fs fname fname).1 fname = true :=
      article_destination_hasDir _ _ _
    cases hrs : runSuppl (env.suppl c.supplUsed) fs2 fname with
    | error e =>
      simp only []
      refine ⟨by simp [h1], ?_, ?_, ?_, ?_, ?_, ?_⟩
      · intro i; simp [h2 i]
      · intro dd; simp [h3 dd]
      · intro dname; simp [h4 dname]
      · intro _
        refine List.mem_append_right _ ?_
        simp [article_destination_snd]
      · intro d n hmem
        rcases List.mem_append.mp hmem with h | h
        · exact h6 d n h
        · simp [article_destination_snd] at h
          exact h
      · intro _
        exact ⟨hfile2, by rw [fsHasDir_congr fs2 _ hdirs2]; exact hdir1⟩
    | ok r =>
      obtain ⟨fs3, names⟩ := r
      simp only []
      have hf3 := fun k hk =>
        runSuppl_hasFile (env.suppl c.supplUsed) fs2 _ fs3 names k hrs hk
      have hd3 := runSuppl_dirs (env.suppl c.supplUsed) fs2 _ fs3 names hrs
      refine ⟨?_, ?_, ?_, ?_, ?_, ?_, ?_⟩
      · simp [h1]
      · intro i; simp [h2 i]
      · intro dd; simp [h3 dd]
      · intro dname; simp [h4 dname]
      · intro _
        refine List.mem_append_left _ (List.mem_append_right _ ?_)
        simp [article_destination_snd]
      · intro d n hmem
        rcases List.mem_append.mp hmem with h | h
        · rcases List.mem_append.mp h with h' | h'
          · exact h6 d n h'
          · simp [article_destination_snd] at h'
            exact h'
        · exact absurd h (by simp)
      · intro _
        refine ⟨hf3 _ hfile2, ?_⟩
        rw [fsHasDir_congr fs3 fs2 hd3, fsHasDir_congr fs2 _ hdirs2]
        exact hdir1

theorem crossrefChain_CInv (cfg : BatchConfig) (env : RecordEnv)
    (fname : String) (fs : FS) :
    CInv fname (crossrefChain cfg env fname fs) := by
  have hc0 : CInv fname ⟨fs, [], [], false, false, [], 0⟩ := by
    refine ⟨by simp, by simp, by simp, by simp, by simp, by simp, by simp⟩
  unfold crossrefChain
  simp only []
  split
  · split
    · exact chainBlock_CInv _ _ _ _ _ _ (chainBlock_CInv _ _ _ _ _ _ hc0)
    · exact chainBlock_CInv _ _ _ _ _ _ hc0
  · split
    · exact chainBlock_CInv _ _ _ _ _ _ hc0
    · exact hc0

theorem crossrefFinish_wf (fname : String) (c : ChainState)
    (hc : CInv fname c) : BodyWF (crossrefFinish fname c) := by
  obtain ⟨h1, h2, h3, h4, h5, h6, h7⟩ := hc
  have hbody : ∀ err : Option PyError,
      BodyWF ⟨c.fs, c.yields, c.events, some fname, c.pdfDownloaded, false,
        err⟩ := by
    intro err
    refine ⟨h1, h2, ?_, ?_, ?_, ?_⟩
    · constructor
      · rintro ⟨dd, h⟩; exact absurd h (h3 dd)
      · intro h; exact absurd h (by simp)
    · intro hpdf
      exact ⟨fname, fname ++ ".pdf", h5 hpdf⟩
    · intro d n hmem
      obtain ⟨hd, hn⟩ := h6 d n hmem
      subst hd; subst hn
      exact h7 hmem
    · intro dname hmem
      exact absurd hmem (h4 dname)
  unfold crossrefFinish
  split
  · exact hbody none
  · cases c.tried.getLast? with
    | some e => exact hbody (some e)
    | none => exact hbody _

theorem crossrefBranch_wf (cfg : BatchConfig) (env : RecordEnv)
    (rec : ArticleRecord) (fs : FS) : BodyWF (crossrefBranch cfg env rec fs) := by
  unfold crossrefBranch
  split
  · exact ⟨by simp, by simp, by simp, by simp, by simp, by simp⟩
  · exact crossrefFinish_wf _ _ (crossrefChain_CInv cfg env _ fs)

theorem recordBody_wf (cfg : BatchConfig) (env : RecordEnv)
    (rec : ArticleRecord) (fs : FS) : BodyWF (recordBody cfg env rec fs) := by
  unfold recordBody
  simp only []
  split
  · exact elsevierBranch_wf cfg env rec fs
  · split
    · exact wileyBranch_wf cfg env rec fs
    · split
      · exact springerBranch_wf cfg env rec fs
      · split
        · exact crossrefBranch_wf cfg env rec fs
        · exact ⟨by simp, by simp, by simp, by simp, by simp, by simp⟩

/-! ## Metrics lemmas -/

theorem bumpAttempted_cons_ne (e : String × Nat × Nat)
    (es : List (String × Nat × Nat)) (l : String) (he : ¬ e.1 = l) :
    bumpAttempted (e :: es) l = e :: bumpAttempted es l := by
  unfold bumpAttempted
  rw [List.find?_cons_of_neg _ (by simp [he])]
  split <;> simp [he]

theorem bumpAttempted_cons_eq (e : String × Nat × Nat)
    (es : List (String × Nat × Nat)) (l : String) (he : e.1 = l) :
    bumpAttempted (e :: es) l =
      (e.1, e.2.1 + 1, e.2.2) ::
        es.map (fun x => if x.1 = l then (x.1, x.2.1 + 1, x.2.2) else x) := by
  unfold bumpAttempted
  rw [List.find?_cons_of_pos _ (by simp [he]),
    if_pos (show (some e).isSome = true from rfl)]
  simp [he]

theorem mGet_cons_ne (e : String × Nat × Nat) (es : List (String × Nat × Nat))
    (l : String) (he : ¬ e.1 = l) : mGet (e :: es) l = mGet es l := by
  unfold mGet
  rw [List.find?_cons_of_neg _ (by simp [he])]

theorem mGet_cons_eq (e : String × Nat × Nat) (es : List (String × Nat × Nat))
    (l : String) (he : e.1 = l) : mGet (e :: es) l = some e.2 := by
  unfold mGet
  rw [List.find?_cons_of_pos _ (by simp [he])]
  rfl

theorem mGet_map_upd (g : String × Nat × Nat → Nat × Nat)
    (es : List (String × Nat × Nat)) (l l' : String) (h : ¬ l' = l) :
    mGet (es.map (fun x => if x.1 = l then (x.1, g x) else x)) l' =
      mGet es l' := by
  induction es with
  | nil => rfl
  | cons f fs ih =>
    simp only [List.map_cons]
    by_cases hf : f.1 = l
    · rw [if_pos hf]
      rw [mGet_cons_ne _ _ _ (by simp [hf]; exact fun hx => h hx.symm),
        mGet_cons_ne _ _ _ (by rw [hf]; exact fun hx => h hx.symm)]
      exact ih
    · rw [if_neg hf]
      by_cases hfl' : f.1 = l'
      · rw [mGet_cons_eq _ _ _ hfl', mGet_cons_eq _ _ _ hfl']
      · rw [mGet_cons_ne _ _ _ hfl', mGet_cons_ne _ _ _ hfl']
        exact ih

theorem mAtt_bumpAttempted_self (m : List (String × Nat × Nat)) (l : String) :
    mAtt (bumpAttempted m l) l = mAtt m l + 1 := by
  induction m with
  | nil =>
    simp [bumpAttempted, mAtt, mGet, List.find?]
  | cons e es ih =>
    by_cases he : e.1 = l
    · rw [bumpAttempted_cons_eq _ _ _ he]
      unfold mAtt
      rw [mGet_cons_eq (e.1, e.2.1 + 1, e.2.2) _ _ he, mGet_cons_eq _ _ _ he]
      rfl
    · rw [bumpAttempted_cons_ne _ _ _ he]
      unfold mAtt
      rw [mGet_cons_ne _ _ _ he, mGet_cons_ne _ _ _ he]
      exact ih

theorem mGet_bumpAttempted_ne (m : List (String × Nat × Nat)) (l l' : String)
    (h : ¬ l' = l) : mGet (bumpAttempted m l) l' = mGet m l' := by
  induction m with
  | nil =>
    unfold bumpAttempted mGet
    simp [List.find?, show ¬ l = l' from fun hx => h hx.symm]
  | cons e es ih =>
    by_cases he : e.1 = l
    · rw [bumpAttempted_cons_eq _ _ _ he]
      rw [mGet_cons_ne (e.1, e.2.1 + 1, e.2.2) _ _
          (by simp only []; rw [he]; exact fun hx => h hx.symm),
        mGet_cons_ne _ _ _ (by rw [he]; exact fun hx => h hx.symm)]
      exact mGet_map_upd _ _ _ _ h
    · rw [bumpAttempted_cons_ne _ _ _ he]
      by_cases hfl' : e.1 = l'
      · rw [mGet_cons_eq _ _ _ hfl', mGet_cons_eq _ _ _ hfl']
      · rw [mGet_cons_ne _ _ _ hfl', mGet_cons_ne _ _ _ hfl']
        exact ih

theorem mSucc_bumpAttempted (m : List (String × Nat × Nat)) (l l' : String) :
    mSucc (bumpAttempted m l) l' = mSucc m l' := by
  by_cases h : l' = l
  · subst h
    induction m with
    | nil => simp [bumpAttempted, mSucc, mGet, List.find?]
    | cons e es ih =>
      by_cases he : e.1 = l'
      · rw [bumpAttempted_cons_eq _ _ _ he]
        unfold mSucc
        rw [mGet_cons_eq (e.1, e.2.1 + 1, e.2.2) _ _ he, mGet_cons_eq _ _ _ he]
        rfl
      · rw [bumpAttempted_cons_ne _ _ _ he]
        unfold mSucc
        rw [mGet_cons_ne _ _ _ he, mGet_cons_ne _ _ _ he]
        exact ih
  · unfold mSucc
    rw [mGet_bumpAttempted_ne _ _ _ h]

theorem mGet_bumpSucceeded_ne (m : List (String × Nat × Nat)) (l l' : String)
    (h : ¬ l' = l) : mGet (bumpSucceeded m l) l' = mGet m l' := by
  unfold bumpSucceeded
  exact mGet_map_upd (fun x => (x.2.1, x.2.2 + 1)) m l l' h

theorem mGet_bumpSucceeded_self (m : List (String × Nat × Nat)) (l : String) :
    mGet (bumpSucceeded m l) l =
      (mGet m l).map (fun p => (p.1, p.2 + 1)) := by
  induction m with
  | nil => rfl
  | cons e es ih =>
    unfold bumpSucceeded
    simp only [List.map_cons]
    by_cases he : e.1 = l
    · rw [if_pos he]
      rw [mGet_cons_eq (e.1, e.2.1, e.2.2 + 1) _ _ he, mGet_cons_eq _ _ _ he]
      rfl
    · rw [if_neg he]
      rw [mGet_cons_ne _ _ _ he, mGet_cons_ne _ _ _ he]
      exact ih

theorem mAtt_bumpSucceeded (m : List (String × Nat × Nat)) (l l' : String) :
    mAtt (bumpSucceeded m l) l' = mAtt m l' := by
  by_cases h : l' = l
  · subst h
    unfold mAtt
    rw [mGet_bumpSucceeded_self]
    cases mGet m l' <;> rfl
  · unfold mAtt
    rw [mGet_bumpSucceeded_ne _ _ _ h]

theorem mGet_bumpAttempted_isSome (m : List (String × Nat × Nat)) (l : String) :
    (mGet (bumpAttempted m l) l).isSome = true := by
  induction m with
  | nil => simp [bumpAttempted, mGet, List.find?]
  | cons e es ih =>
    by_cases he : e.1 = l
    · rw [bumpAttempted_cons_eq _ _ _ he]
      rw [mGet_cons_eq (e.1, e.2.1 + 1, e.2.2) _ _ he]
      rfl
    · rw [bumpAttempted_cons_ne _ _ _ he]
      rw [mGet_cons_ne _ _ _ he]
      exact ih

theorem mSucc_bumpSucceeded_present (m : List (String × Nat × Nat))
    (l : String) (h : (mGet m l).isSome = true) :
    mSucc (bumpSucceeded m l) l = mSucc m l + 1 := by
  unfold mSucc
  rw [mGet_bumpSucceeded_self]
  cases hm : mGet m l
  · rw [hm] at h; simp at h
  · simp

theorem mProps_m1 (m : List (String × Nat × Nat)) (label : String) :
    mAtt (bumpAttempted m label) label = mAtt m label + 1
    ∧ (∀ l, ¬ l = label → mGet (bumpAttempted m label) l = mGet m l)
    ∧ mSucc (bumpAttempted m label) label = mSucc m label
    ∧ ((∀ l, mSucc m l ≤ mAtt m l) →
        ∀ l, mSucc (bumpAttempted m label) l ≤ mAtt (bumpAttempted m label) l) := by
  refine ⟨mAtt_bumpAttempted_self m label,
    fun l h => mGet_bumpAttempted_ne m label l h,
    mSucc_bumpAttempted m label label, fun hinv l => ?_⟩
  by_cases h : l = label
  · subst h
    rw [mSucc_bumpAttempted, mAtt_bumpAttempted_self]
    exact Nat.le_succ_of_le (hinv l)
  · unfold mAtt mSucc
    rw [mGet_bumpAttempted_ne m label l h]
    exact hinv l

theorem mProps_m2 (m : List (String × Nat × Nat)) (label : String) :
    mAtt (bumpSucceeded (bumpAttempted m label) label) label = mAtt m label + 1
    ∧ (∀ l, ¬ l = label →
        mGet (bumpSucceeded (bumpAttempted m label) label) l = mGet m l)
    ∧ mSucc (bumpSucceeded (bumpAttempted m label) label) label
        = mSucc m label + 1
    ∧ ((∀ l, mSucc m l ≤ mAtt m l) →
        ∀ l, mSucc (bumpSucceeded (bumpAttempted m label) label) l
          ≤ mAtt (bumpSucceeded (bumpAttempted m label) label) l) := by
  refine ⟨?_, ?_, ?_, ?_⟩
  · rw [mAtt_bumpSucceeded, mAtt_bumpAttempted_self]
  · intro l h
    rw [mGet_bumpSucceeded_ne _ _ _ h, mGet_bumpAttempted_ne m label l h]
  · rw [mSucc_bumpSucceeded_present _ _ (mGet_bumpAttempted_isSome m label),
      mSucc_bumpAttempted]
  · intro hinv l
    by_cases h : l = label
    · subst h
      rw [mAtt_bumpSucceeded, mAtt_bumpAttempted_self,
        mSucc_bumpSucceeded_present _ _ (mGet_bumpAttempted_isSome m l),
        mSucc_bumpAttempted]
      exact Nat.succ_le_succ (hinv l)
    · unfold mAtt mSucc
      rw [mGet_bumpSucceeded_ne _ _ _ h, mGet_bumpAttempted_ne m label l h]
      exact hinv l

theorem processRecord_inv (cfg : BatchConfig) (env : RecordEnv)
    (rec : ArticleRecord) (st : BatchState)
    (hinv : ∀ l, mSucc st.metrics l ≤ mAtt st.metrics l) :
    ∀ l, mSucc (processRecord cfg env rec st).1.metrics l
      ≤ mAtt (processRecord cfg env rec st).1.metrics l := by
  unfold processRecord
  simp only []
  by_cases hm : cfg.metricsOn = true
  · rw [if_pos hm]
    have hA := (mProps_m1 st.metrics (rec.publisher.getD "Unknown")).2.2.2 hinv
    have hB := (mProps_m2 st.metrics (rec.publisher.getD "Unknown")).2.2.2 hinv
    cases herr : (recordBody cfg env rec st.fs).err with
    | some e =>
      cases had : (recordBody cfg env rec st.fs).articleDir <;>
        simp only [] <;> exact hA
    | none =>
      simp only []
      by_cases hskip : (recordBody cfg env rec st.fs).skip = true
      · rw [if_pos hskip]; exact hA
      · rw [if_neg hskip]
        by_cases hp : (recordBody cfg env rec st.fs).pdfDownloaded = true
        · rw [if_pos (show cfg.metricsOn = true ∧
              (recordBody cfg env rec st.fs).pdfDownloaded = true from ⟨hm, hp⟩)]
          by_cases hdel : delayTruthy cfg.delay_seconds = true
          · rw [if_pos hdel]; exact hB
          · rw [if_neg hdel]; exact hB
        · rw [if_neg (show ¬ (cfg.metricsOn = true ∧
              (recordBody cfg env rec st.fs).pdfDownloaded = true) from
              fun hc => hp hc.2)]
          by_cases hdel : delayTruthy cfg.delay_seconds = true
          · rw [if_pos hdel]; exact hA
          · rw [if_neg hdel]; exact hA
  · rw [if_neg hm]
    cases herr : (recordBody cfg env rec st.fs).err with
    | some e =>
      cases had : (recordBody cfg env rec st.fs).articleDir <;>
        simp only [] <;> exact hinv
    | none =>
      simp only []
      by_cases hskip : (recordBody cfg env rec st.fs).skip = true
      · rw [if_pos hskip]; exact hinv
      · rw [if_neg hskip]
        rw [if_neg (show ¬ (cfg.metricsOn = true ∧
            (recordBody cfg env rec st.fs).pdfDownloaded = true) from
            fun hc => hm hc.1)]
        by_cases hdel : delayTruthy cfg.delay_seconds = true
        · rw [if_pos hdel]; exact hinv
        · rw [if_neg hdel]; exact hinv

theorem runBatch_inv (cfg : BatchConfig) :
    ∀ (items : List (RecordEnv × ArticleRecord)) (st : BatchState),
    (∀ l, mSucc st.metrics l ≤ mAtt st.metrics l) →
    ∀ l, mSucc (runBatch cfg items st).1.metrics l
      ≤ mAtt (runBatch cfg items st).1.metrics l := by
  intro items
  induction items with
  | nil => intro st h l; exact h l
  | cons it rest ih =>
    intro st h l
    obtain ⟨env, rec⟩ := it
    have hstep := processRecord_inv cfg env rec st h
    unfold runBatch
    rcases hpr : processRecord cfg env rec st with ⟨st1, ev1, err⟩
    rw [hpr] at hstep
    cases err with
    | some e => exact hstep l
    | none =>
      simp only []
      rcases hrb : runBatch cfg rest st1 with ⟨st2, ev2, e2⟩
      have := ih st1 hstep l
      rw [hrb] at this
      exact this

/-! ## Claim C5: per-record metrics accounting -/

/-- C5: with a metrics mapping supplied, processing one record increments
the record's publisher bucket's attempted count by exactly one (other
buckets untouched), increments its succeeded count by at most one and only
when a primary PDF was yielded, and preserves `succeeded ≤ attempted`
across all buckets. -/
theorem metrics_per_record (cfg : BatchConfig) (env : RecordEnv)
    (rec : ArticleRecord) (st : BatchState) (hm : cfg.metricsOn = true) :
    (mAtt (processRecord cfg env rec st).1.metrics (rec.publisher.getD "Unknown")
      = mAtt st.metrics (rec.publisher.getD "Unknown") + 1
    ∧ (∀ l, ¬ l = rec.publisher.getD "Unknown" →
        mGet (processRecord cfg env rec st).1.metrics l = mGet st.metrics l)
    ∧ (mSucc (processRecord cfg env rec st).1.metrics (rec.publisher.getD "Unknown")
          = mSucc st.metrics (rec.publisher.getD "Unknown")
        ∨ mSucc (processRecord cfg env rec st).1.metrics (rec.publisher.getD "Unknown")
          = mSucc st.metrics (rec.publisher.getD "Unknown") + 1)
    ∧ (mSucc (processRecord cfg env rec st).1.metrics (rec.publisher.getD "Unknown")
          = mSucc st.metrics (rec.publisher.getD "Unknown") + 1 →
        ∃ d n, BEvent.yieldPdf d n ∈ (processRecord cfg env rec st).2.1)
    ∧ ((∀ l, mSucc st.metrics l ≤ mAtt st.metrics l) →
        ∀ l, mSucc (processRecord cfg env rec st).1.metrics l
          ≤ mAtt (processRecord cfg env rec st).1.metrics l))
    ∧ ∀ (items : List (RecordEnv × ArticleRecord)) (st0 : BatchState),
        (∀ l, mSucc st0.metrics l ≤ mAtt st0.metrics l) →
        ∀ l, mSucc (runBatch cfg items st0).1.metrics l
          ≤ mAtt (runBatch cfg items st0).1.metrics l := by
  refine ⟨?_, fun items st0 h => runBatch_inv cfg items st0 h⟩
  have hwf := recordBody_wf cfg env rec st.fs
  obtain ⟨-, -, -, hpdf, -, -⟩ := hwf
  obtain ⟨A1, A2, A3, A4⟩ := mProps_m1 st.metrics (rec.publisher.getD "Unknown")
  obtain ⟨B1, B2, B3, B4⟩ := mProps_m2 st.metrics (rec.publisher.getD "Unknown")
  unfold processRecord
  simp only []
  rw [if_pos hm]
  cases herr : (recordBody cfg env rec st.fs).err with
  | some e =>
    cases had : (recordBody cfg env rec st.fs).articleDir with
    | some dname =>
      simp only []
      refine ⟨A1, A2, Or.inl A3, ?_, A4⟩
      rw [A3]
      omega
    | none =>
      simp only []
      refine ⟨A1, A2, Or.inl A3, ?_, A4⟩
      rw [A3]
      omega
  | none =>
    simp only []
    by_cases hskip : (recordBody cfg env rec st.fs).skip = true
    · rw [if_pos hskip]
      refine ⟨A1, A2, Or.inl A3, ?_, A4⟩
      rw [A3]
      omega
    · rw [if_neg hskip]
      by_cases hp : (recordBody cfg env rec st.fs).pdfDownloaded = true
      · rw [if_pos (show cfg.metricsOn = true ∧
            (recordBody cfg env rec st.fs).pdfDownloaded = true from ⟨hm, hp⟩)]
        obtain ⟨d, n, hdn⟩ := hpdf hp
        by_cases hdel : delayTruthy cfg.delay_seconds = true
        · rw [if_pos hdel]
          exact ⟨B1, B2, Or.inr B3,
            fun _ => ⟨d, n, List.mem_append_left _ hdn⟩, B4⟩
        · rw [if_neg hdel]
          exact ⟨B1, B2, Or.inr B3, fun _ => ⟨d, n, hdn⟩, B4⟩
      · rw [if_neg (show ¬ (cfg.metricsOn = true ∧
            (recordBody cfg env rec st.fs).pdfDownloaded = true) from
            fun hc => hp hc.2)]
        by_cases hdel : delayTruthy cfg.delay_seconds = true
        · rw [if_pos hdel]
          refine ⟨A1, A2, Or.inl A3, ?_, A4⟩
          rw [A3]
          omega
        · rw [if_neg hdel]
          refine ⟨A1, A2, Or.inl A3, ?_, A4⟩
          rw [A3]
          omega

/-- Witness for C5: a successful Wiley record bumps attempted by one and
keeps the invariant. -/
theorem metrics_per_record_witness :
    mAtt (processRecord sampleCfg sampleEnvOk sampleRecWiley sampleSt).1.metrics
        (sampleRecWiley.publisher.getD "Unknown")
      = mAtt sampleSt.metrics (sampleRecWiley.publisher.getD "Unknown") + 1
    ∧ mSucc (processRecord sampleCfg sampleEnvOk sampleRecWiley sampleSt).1.metrics
        "Wiley"
      ≤ mAtt (processRecord sampleCfg sampleEnvOk sampleRecWiley sampleSt).1.metrics
        "Wiley" :=
  ⟨(metrics_per_record sampleCfg sampleEnvOk sampleRecWiley sampleSt rfl).1.1,
   (metrics_per_record sampleCfg sampleEnvOk sampleRecWiley sampleSt rfl).1.2.2.2.2
     (fun l => by simp [sampleSt, mSucc, mAtt, mGet, List.find?]) "Wiley"⟩

/-! ## Claim C6: when the inter-record delay is applied -/

/-- C6 counterexample: the claim fails as stated.  With a configured delay,
a Springer record skipped on the subscription wall (a benign skip) gets no
inter-record delay: the `continue` in the subscription-wall handler jumps
past the `time.sleep` call. -/
theorem delay_not_applied_after_skip :
    delayTruthy sampleCfg.delay_seconds = true
    ∧ BEvent.skipped "10.1007/x" ∈
        (processRecord sampleCfg sampleEnvWall sampleRecSpringer sampleSt).2.1
    ∧ (processRecord sampleCfg sampleEnvWall sampleRecSpringer sampleSt).1.sleeps
        = sampleSt.sleeps
    ∧ BEvent.slept ∉
        (processRecord sampleCfg sampleEnvWall sampleRecSpringer sampleSt).2.1 := by
  exact ⟨by decide, by decide, by decide, by decide⟩

/-- C6 (amended): the inter-record delay is applied exactly after a
successfully processed record — one on which no failure was reported and no
subscription-wall skip occurred — and not after a skip, a disqualification,
or any other failure. -/
theorem delay_applied_iff (cfg : BatchConfig) (env : RecordEnv)
    (rec : ArticleRecord) (st : BatchState) :
    (BEvent.slept ∈ (processRecord cfg env rec st).2.1 ↔
      delayTruthy cfg.delay_seconds = true
      ∧ (∀ i, BEvent.failed i ∉ (processRecord cfg env rec st).2.1)
      ∧ (∀ dd, BEvent.skipped dd ∉ (processRecord cfg env rec st).2.1))
    ∧ ((processRecord cfg env rec st).1.sleeps = st.sleeps ∨
       (processRecord cfg env rec st).1.sleeps = st.sleeps + 1)
    ∧ ((processRecord cfg env rec st).1.sleeps = st.sleeps + 1 ↔
       BEvent.slept ∈ (processRecord cfg env rec st).2.1) := by
  have hwf := recordBody_wf cfg env rec st.fs
  unfold processRecord
  rcases hb : recordBody cfg env rec st.fs with
    ⟨bfs, byields, bevents, bdir, bpdf, bskip, berr⟩
  rw [hb] at hwf
  obtain ⟨hslept, hfailed, hskipiff, -, -, -⟩ := hwf
  cases berr with
  | some e =>
    cases bdir with
    | some dname =>
      dsimp only []
      refine ⟨?_, Or.inl rfl, ?_⟩
      · constructor
        · intro h
          simp only [List.mem_append] at h
          rcases h with (h | h) | h
          · exact absurd h hslept
          · simp at h
          · simp at h
        · rintro ⟨-, hf, -⟩
          exact absurd (List.mem_append_right _ (by simp))
            (hf (failIdent e rec))
      · constructor
        · intro h; omega
        · intro h
          simp only [List.mem_append] at h
          rcases h with (h | h) | h
          · exact absurd h hslept
          · simp at h
          · simp at h
    | none =>
      dsimp only []
      refine ⟨?_, Or.inl rfl, ?_⟩
      · constructor
        · intro h
          simp only [List.mem_append] at h
          rcases h with (h | h) | h
          · exact absurd h hslept
          · simp at h
          · simp at h
        · rintro ⟨-, hf, -⟩
          exact absurd (List.mem_append_right _ (by simp))
            (hf (failIdent e rec))
      · constructor
        · intro h; omega
        · intro h
          simp only [List.mem_append] at h
          rcases h with (h | h) | h
          · exact absurd h hslept
          · simp at h
          · simp at h
  | none =>
    dsimp only []
    cases bskip with
    | true =>
      rw [if_pos rfl]
      dsimp only []
      obtain ⟨dd, hdd⟩ := hskipiff.mpr rfl
      refine ⟨?_, Or.inl rfl, ?_⟩
      · constructor
        · intro h; exact absurd h hslept
        · rintro ⟨-, -, hs⟩
          exact absurd hdd (hs dd)
      · constructor
        · intro h; omega
        · intro h; exact absurd h hslept
    | false =>
      rw [if_neg (by simp)]
      by_cases hdel : delayTruthy cfg.delay_seconds = true
      · rw [if_pos hdel]
        dsimp only []
        refine ⟨?_, Or.inr rfl, ?_⟩
        · constructor
          · intro _
            refine ⟨hdel, ?_, ?_⟩
            · intro i h
              simp only [List.mem_append] at h
              rcases h with h | h
              · exact absurd h (hfailed i)
              · simp at h
            · intro dd h
              simp only [List.mem_append] at h
              rcases h with h | h
              · exact absurd (hskipiff.mp ⟨dd, h⟩) (by simp)
              · simp at h
          · intro _
            exact List.mem_append_right _ (by simp)
        · constructor
          · intro _
            exact List.mem_append_right _ (by simp)
          · intro _; rfl
      · rw [if_neg hdel]
        dsimp only []
        refine ⟨?_, Or.inl rfl, ?_⟩
        · constructor
          · intro h; exact absurd h hslept
          · rintro ⟨hd, -, -⟩
            exact absurd hd hdel
        · constructor
          · intro h; omega
          · intro h; exact absurd h hslept

/-- Witness for C6: a successful record with a configured delay sleeps
exactly once. -/
theorem delay_applied_iff_witness :
    (processRecord sampleCfg sampleEnvOk sampleRecWiley sampleSt).1.sleeps =
      sampleSt.sleeps + 1 :=
  (delay_applied_iff sampleCfg sampleEnvOk sampleRecWiley sampleSt).2.2.mpr
    (by decide)

/-! ## Claim C7: the subscription-wall skip -/

theorem runBatch_cons_of_none (cfg : BatchConfig) (env : RecordEnv)
    (rec : ArticleRecord) (rest : List (RecordEnv × ArticleRecord))
    (st : BatchState) (h : (processRecord cfg env rec st).2.2 = none) :
    runBatch cfg ((env, rec) :: rest) st =
      ((runBatch cfg rest (processRecord cfg env rec st).1).1,
       (processRecord cfg env rec st).2.1 ++
         (runBatch cfg rest (processRecord cfg env rec st).1).2.1,
       (runBatch cfg rest (processRecord cfg env rec st).1).2.2) := by
  rcases hpr : processRecord cfg env rec st with ⟨st1, ev1, err⟩
  rw [hpr] at h
  dsimp only [] at h
  subst h
  dsimp only []
  rcases hrb : runBatch cfg rest st1 with ⟨st2, ev2, e2⟩
  show (match processRecord cfg env rec st with
        | (st1, ev1, some e) => (st1, ev1, some e)
        | (st1, ev1, none) =>
          match runBatch cfg rest st1 with
          | (st2, ev2, e2) => (st2, ev1 ++ ev2, e2)) = _
  rw [hpr]
  dsimp only []
  rw [hrb]

/-- C7: a Springer record whose download fails with a subscription-wall
signal ("metadata not found" or an HTTP 403 in the message) is skipped:
no exception propagates (even with `raise_on_error`), no failure is
recorded, no delay is slept, the freshly created empty article directory is
removed (the filesystem is restored), and the batch continues with the next
record. -/
theorem springer_wall_skip (cfg : BatchConfig) (env : RecordEnv)
    (rec : ArticleRecord) (st : BatchState) (d m : String)
    (hpub : rec.publisher = some "Springer") (hdoi : rec.doi = some d)
    (hd : ¬ d = "") (hcfg : cfg.hasSpringer = true)
    (henv : env.springer = .errDL m) (hwall : springerWallMsg m = true)
    (hfresh : ∀ n, fsHasFile st.fs (safe_identifier d, n) = false)
    (hdir : fsHasDir st.fs (safe_identifier d) = false) :
    (processRecord cfg env rec st).2.2 = none
    ∧ (processRecord cfg env rec st).1.failures = st.failures
    ∧ (processRecord cfg env rec st).1.sleeps = st.sleeps
    ∧ BEvent.skipped d ∈ (processRecord cfg env rec st).2.1
    ∧ (processRecord cfg env rec st).1.fs = st.fs
    ∧ ∀ rest, runBatch cfg ((env, rec) :: rest) st =
        ((runBatch cfg rest (processRecord cfg env rec st).1).1,
         (processRecord cfg env rec st).2.1 ++
           (runBatch cfg rest (processRecord cfg env rec st).1).2.1,
         (runBatch cfg rest (processRecord cfg env rec st).1).2.2) := by
  have hfs : cleanupDir (fsAddDir st.fs (safe_identifier d))
      (safe_identifier d) = st.fs := by
    unfold cleanupDir
    rw [if_pos]
    · unfold fsAddDir
      rw [if_neg (by
        unfold fsHasDir at hdir
        simpa using hdir)]
      dsimp only []
      rw [List.filter_cons]
      rw [if_neg (by simp)]
      have hflt : st.fs.dirs.filter
          (fun x => (¬ x = safe_identifier d : Bool)) = st.fs.dirs := by
        apply List.filter_eq_self.mpr
        intro x hx
        simp only [decide_eq_true_eq, decide_not, Bool.not_eq_true',
          decide_eq_false_iff_not]
        intro hcon
        subst hcon
        unfold fsHasDir at hdir
        simp only [List.elem_eq_mem, decide_eq_true_eq] at hdir
        simp [hx] at hdir
      rw [hflt]
    · constructor
      · exact fsHasDir_fsAddDir_self st.fs (safe_identifier d)
      · unfold fsDirEmpty
        rw [fsAddDir_files]
        rw [List.all_eq_true]
        intro e he
        by_cases hc : e.1.1 = safe_identifier d
        · exfalso
          have hmem : fsHasFile st.fs e.1 = true :=
            (fsHasFile_iff _ _).mpr ⟨e.2, by simpa using he⟩
          rw [show e.1 = (safe_identifier d, e.1.2) from Prod.ext hc rfl] at hmem
          rw [hfresh e.1.2] at hmem
          exact Bool.noConfusion hmem
        · simp [hc]
  have hbody : recordBody cfg env rec st.fs =
      ⟨st.fs, [],
       [.call .springer, .skipped d, .cleanup (safe_identifier d)],
       some (safe_identifier d), false, true, none⟩ := by
    rw [recordBody_springer cfg env rec st.fs hpub]
    unfold springerBranch
    rw [hdoi]
    simp only [Option.getD_some]
    rw [if_neg (fun hc => hc hcfg), if_neg hd]
    rw [article_destination_fresh st.fs (safe_identifier d)
      (safe_identifier d) hfresh]
    dsimp only []
    rw [henv]
    rw [runAttempt_fresh _ _ _ _
      (by rw [fsHasFile_fsAddDir]; exact hfresh _)]
    dsimp only []
    rw [if_pos hwall, hfs]
  have hpr : processRecord cfg env rec st =
      (⟨if cfg.metricsOn = true then
          bumpAttempted st.metrics (rec.publisher.getD "Unknown")
        else st.metrics,
        st.fs, st.yielded ++ [], st.sleeps, st.failures⟩,
       [.call .springer, .skipped d, .cleanup (safe_identifier d)], none) := by
    unfold processRecord
    rw [hbody]
    dsimp only []
    rw [if_pos rfl]
  refine ⟨by rw [hpr], by rw [hpr], by rw [hpr], by rw [hpr]; simp,
    by rw [hpr], fun rest => ?_⟩
  exact runBatch_cons_of_none cfg env rec rest st (by rw [hpr])

/-- Witness for C7 at a concrete subscription-wall Springer record. -/
theorem springer_wall_skip_witness :
    (processRecord sampleCfg sampleEnvWall sampleRecSpringer sampleSt).2.2 = none
    ∧ BEvent.skipped "10.1007/x" ∈
        (processRecord sampleCfg sampleEnvWall sampleRecSpringer sampleSt).2.1 :=
  ⟨(springer_wall_skip sampleCfg sampleEnvWall sampleRecSpringer sampleSt
      "10.1007/x" "Springer metadata not found for DOI 10.1007/x"
      rfl rfl (by decide) rfl rfl (by decide) (fun _ => rfl) rfl).1,
   (springer_wall_skip sampleCfg sampleEnvWall sampleRecSpringer sampleSt
      "10.1007/x" "Springer metadata not found for DOI 10.1007/x"
      rfl rfl (by decide) rfl rfl (by decide) (fun _ => rfl) rfl).2.2.2.1⟩

/-! ## Claim C8: cleanup after failure -/

theorem fsHasDir_cleanupDir_le (fs : FS) (d0 d : String)
    (h : fsHasDir (cleanupDir fs d0) d = true) : fsHasDir fs d = true := by
  unfold cleanupDir at h
  split at h
  · unfold fsHasDir at h ⊢
    simp only [List.elem_eq_mem, decide_eq_true_eq, List.mem_filter] at h ⊢
    exact h.1
  · exact h

theorem fsDirEmpty_cleanupDir (fs : FS) (d0 d : String) :
    fsDirEmpty (cleanupDir fs d0) d = fsDirEmpty fs d := by
  unfold fsDirEmpty
  rw [cleanupDir_files]

/-- C8: after processing any record, a directory visited by the cleanup
helper is never left behind both existing and empty, and every yielded
primary PDF (with its directory) is still present on the filesystem — in
particular a failure after the primary PDF was written (e.g. in the
supplement stage) leaves the PDF intact. -/
theorem cleanup_after_failure (cfg : BatchConfig) (env : RecordEnv)
    (rec : ArticleRecord) (st : BatchState) :
    (∀ dname, BEvent.cleanup dname ∈ (processRecord cfg env rec st).2.1 →
      ¬ (fsHasDir (processRecord cfg env rec st).1.fs dname = true
         ∧ fsDirEmpty (processRecord cfg env rec st).1.fs dname = true))
    ∧ (∀ d n, BEvent.yieldPdf d n ∈ (processRecord cfg env rec st).2.1 →
        fsHasFile (processRecord cfg env rec st).1.fs (d, n) = true
        ∧ fsHasDir (processRecord cfg env rec st).1.fs d = true) := by
  have hwf := recordBody_wf cfg env rec st.fs
  unfold processRecord
  rcases hb : recordBody cfg env rec st.fs with
    ⟨bfs, byields, bevents, bdir, bpdf, bskip, berr⟩
  rw [hb] at hwf
  obtain ⟨-, -, -, -, hyield, hclean⟩ := hwf
  dsimp only [] at hyield hclean ⊢
  cases berr with
  | some e =>
    cases bdir with
    | some dname0 =>
      dsimp only []
      constructor
      · intro dname h
        simp only [List.mem_append] at h
        rcases h with (h | h) | h
        · rintro ⟨ha, hb2⟩
          refine hclean dname h ⟨fsHasDir_cleanupDir_le _ _ _ ha, ?_⟩
          rwa [fsDirEmpty_cleanupDir] at hb2
        · have : dname = dname0 := by simpa using h
          subst this
          exact cleanupDir_not_empty_dir _ _
        · simp at h
      · intro d n h
        simp only [List.mem_append] at h
        rcases h with (h | h) | h
        · obtain ⟨hf, hd⟩ := hyield d n h
          refine ⟨by rwa [fsHasFile_cleanupDir], ?_⟩
          exact fsHasDir_cleanupDir_of_file _ _ _ (d, n) rfl hf hd
        · simp at h
        · simp at h
    | none =>
      dsimp only []
      constructor
      · intro dname h
        simp only [List.mem_append] at h
        rcases h with (h | h) | h
        · exact hclean dname h
        · simp at h
        · simp at h
      · intro d n h
        simp only [List.mem_append] at h
        rcases h with (h | h) | h
        · exact hyield d n h
        · simp at h
        · simp at h
  | none =>
    dsimp only []
    cases bskip with
    | true =>
      rw [if_pos rfl]
      exact ⟨fun dname h => hclean dname h, fun d n h => hyield d n h⟩
    | false =>
      rw [if_neg (by simp)]
      by_cases hdel : delayTruthy cfg.delay_seconds = true
      · rw [if_pos hdel]
        dsimp only []
        constructor
        · intro dname h
          rcases List.mem_append.mp h with h | h
          · exact hclean dname h
          · simp at h
        · intro d n h
          rcases List.mem_append.mp h with h | h
          · exact hyield d n h
          · simp at h
      · rw [if_neg hdel]
        dsimp only []
        exact ⟨fun dname h => hclean dname h, fun d n h => hyield d n h⟩

/-- Witness for C8: a Wiley record that fails in the supplement stage after
the primary PDF was written keeps the PDF and its directory. -/
theorem cleanup_after_failure_witness :
    fsHasFile
        (processRecord sampleCfg sampleEnvSupplRaise sampleRecWiley sampleSt).1.fs
        ("10.1002_z", "10.1002_z.pdf") = true
    ∧ fsHasDir
        (processRecord sampleCfg sampleEnvSupplRaise sampleRecWiley sampleSt).1.fs
        "10.1002_z" = true :=
  (cleanup_after_failure sampleCfg sampleEnvSupplRaise sampleRecWiley
    sampleSt).2 "10.1002_z" "10.1002_z.pdf" (by decide)

/-! ## Claim C1: the Crossref-record provider chain -/

theorem filterCalls_yieldSuppl (d : String) (names : List String) :
    (names.map (fun n => BEvent.yieldSuppl d n)).filterMap evCall = [] := by
  induction names with
  | nil => rfl
  | cons n ns ih =>
    rw [List.map_cons, List.filterMap_cons]
    exact ih

theorem filterCalls_chain_ok (p : Provider) (a b : String)
    (names : List String) :
    (([BEvent.call p, .yieldPdf a b, .supplCall] ++
        names.map (fun n => BEvent.yieldSuppl a n)).filterMap evCall) = [p] := by
  rw [List.filterMap_append, filterCalls_yieldSuppl, List.append_nil]
  rfl

theorem chainBlock_calls (ov : Bool) (p : Provider) (out : AttemptOutcome)
    (env : RecordEnv) (fname : String) (c : ChainState) :
    ((chainBlock ov p out env fname c).events).filterMap evCall =
      (c.events).filterMap evCall ++ [p] := by
  unfold chainBlock
  simp only []
  cases hra : runAttempt ov out (article_destination c.fs fname fname).1
      (article_destination c.fs fname fname).2 with
  | error e =>
    simp only []
    rw [List.filterMap_append]
    rfl
  | ok fs2 =>
    simp only []
    cases hrs : runSuppl (env.suppl c.supplUsed) fs2 fname with
    | error e =>
      simp only []
      rw [List.filterMap_append]
      rfl
    | ok r =>
      obtain ⟨fs3, names⟩ := r
      simp only []
      rw [List.filterMap_append, List.filterMap_append,
        filterCalls_yieldSuppl, List.append_nil]
      rfl

theorem chainBlock_errDL (ov : Bool) (p : Provider) (m : String)
    (env : RecordEnv) (fname : String) (c : ChainState)
    (hfresh : ∀ n, fsHasFile c.fs (fname, n) = false) :
    chainBlock ov p (.errDL m) env fname c =
      ⟨fsAddDir c.fs fname, c.yields, c.events ++ [.call p], c.pdfDownloaded,
        c.success, c.tried ++ [.downloadError m], c.supplUsed⟩ := by
  unfold chainBlock
  simp only []
  rw [article_destination_fresh c.fs fname fname hfresh]
  dsimp only []
  rw [runAttempt_fresh ov _ _ _
    ((fsHasFile_fsAddDir c.fs fname _).trans (hfresh _))]

theorem chainBlock_errOther (ov : Bool) (p : Provider)
    (env : RecordEnv) (fname : String) (c : ChainState)
    (hfresh : ∀ n, fsHasFile c.fs (fname, n) = false) :
    chainBlock ov p .errOther env fname c =
      ⟨fsAddDir c.fs fname, c.yields, c.events ++ [.call p], c.pdfDownloaded,
        c.success, c.tried ++ [.otherError], c.supplUsed⟩ := by
  unfold chainBlock
  simp only []
  rw [article_destination_fresh c.fs fname fname hfresh]
  dsimp only []
  rw [runAttempt_fresh ov _ _ _
    ((fsHasFile_fsAddDir c.fs fname _).trans (hfresh _))]

theorem chainBlock_ok_saved (ov : Bool) (p : Provider) (bytes : List Nat)
    (names : List String) (env : RecordEnv) (fname : String) (c : ChainState)
    (hfresh : ∀ n, fsHasFile c.fs (fname, n) = false)
    (hsup : env.suppl c.supplUsed = .saved names) :
    chainBlock ov p (.ok bytes) env fname c =
      ⟨names.foldl (fun f n => fsWrite f (fname, n) [])
          (fsWrite (fsAddDir c.fs fname) (fname, fname ++ ".pdf") bytes),
        c.yields ++ (fname, fname ++ ".pdf") ::
          names.map (fun n => (fname, n)),
        c.events ++ [.call p, .yieldPdf fname (fname ++ ".pdf"), .supplCall]
          ++ names.map (fun n => BEvent.yieldSuppl fname n),
        true, true, c.tried, c.supplUsed + 1⟩ := by
  unfold chainBlock
  simp only []
  rw [article_destination_fresh c.fs fname fname hfresh]
  dsimp only []
  rw [runAttempt_fresh ov _ _ _
    ((fsHasFile_fsAddDir c.fs fname _).trans (hfresh _))]
  dsimp only []
  rw [hsup]
  dsimp only [runSuppl]

theorem crossrefChain_OA (cfg : BatchConfig) (env : RecordEnv)
    (fname : String) (fs : FS) (h1 : cfg.hasOpenalex = true) :
    crossrefChain cfg env fname fs =
      (if ¬ (chainBlock cfg.overwrite .openalex env.openalex env fname
            ⟨fs, [], [], false, false, [], 0⟩).success ∧ cfg.hasCrossref then
        chainBlock cfg.overwrite .crossref env.crossref env fname
          (chainBlock cfg.overwrite .openalex env.openalex env fname
            ⟨fs, [], [], false, false, [], 0⟩)
      else
        chainBlock cfg.overwrite .openalex env.openalex env fname
          ⟨fs, [], [], false, false, [], 0⟩) := by
  unfold crossrefChain
  simp only []
  rw [if_pos h1]

theorem crossrefChain_noOA_CR (cfg : BatchConfig) (env : RecordEnv)
    (fname : String) (fs : FS) (h1 : cfg.hasOpenalex = false)
    (h2 : cfg.hasCrossref = true) :
    crossrefChain cfg env fname fs =
      chainBlock cfg.overwrite .crossref env.crossref env fname
        ⟨fs, [], [], false, false, [], 0⟩ := by
  unfold crossrefChain
  simp only []
  rw [if_neg (show ¬ cfg.hasOpenalex = true from by simp [h1])]
  rw [if_pos (show
    ¬ (⟨fs, [], [], false, false, [], 0⟩ : ChainState).success = true
      ∧ cfg.hasCrossref = true from ⟨by simp, h2⟩)]

theorem crossrefChain_noOA_noCR (cfg : BatchConfig) (env : RecordEnv)
    (fname : String) (fs : FS) (h1 : cfg.hasOpenalex = false)
    (h2 : cfg.hasCrossref = false) :
    crossrefChain cfg env fname fs = ⟨fs, [], [], false, false, [], 0⟩ := by
  unfold crossrefChain
  simp only []
  rw [if_neg (show ¬ cfg.hasOpenalex = true from by simp [h1])]
  rw [if_neg (show
    ¬ (¬ (⟨fs, [], [], false, false, [], 0⟩ : ChainState).success = true
      ∧ cfg.hasCrossref = true) from by simp [h2])]

theorem crossrefFinish_events (fname : String) (c : ChainState) :
    (crossrefFinish fname c).events = c.events := by
  unfold crossrefFinish
  split
  · rfl
  · split <;> rfl

theorem crossrefFinish_success (fname : String) (c : ChainState)
    (h : c.success = true) :
    crossrefFinish fname c =
      ⟨c.fs, c.yields, c.events, some fname, c.pdfDownloaded, false, none⟩ := by
  unfold crossrefFinish
  rw [if_pos h]

theorem crossrefFinish_fail (fname : String) (c : ChainState) (e : PyError)
    (h : c.success = false) (hl : c.tried.getLast? = some e) :
    crossrefFinish fname c =
      ⟨c.fs, c.yields, c.events, some fname, c.pdfDownloaded, false,
        some e⟩ := by
  unfold crossrefFinish
  rw [if_neg (by simp [h]), hl]

theorem cleanupDir_no_dir (fs : FS) (d : String)
    (h : fsHasDir fs d = false) : cleanupDir fs d = fs := by
  unfold cleanupDir
  rw [if_neg]
  rintro ⟨h1, -⟩
  rw [h] at h1
  exact Bool.noConfusion h1

theorem processRecord_calls (cfg : BatchConfig) (env : RecordEnv)
    (rec : ArticleRecord) (st : BatchState) :
    ((processRecord cfg env rec st).2.1).filterMap evCall =
      ((recordBody cfg env rec st.fs).events).filterMap evCall := by
  unfold processRecord
  simp only []
  cases herr : (recordBody cfg env rec st.fs).err with
  | some e =>
    cases had : (recordBody cfg env rec st.fs).articleDir with
    | some dname =>
      simp only []
      rw [List.filterMap_append, List.filterMap_append]
      simp [evCall]
    | none =>
      simp only []
      rw [List.filterMap_append, List.filterMap_append]
      simp [evCall]
  | none =>
    simp only []
    by_cases hskip : (recordBody cfg env rec st.fs).skip = true
    · rw [if_pos hskip]
    · rw [if_neg hskip]
      by_cases hdel : delayTruthy cfg.delay_seconds = true
      · rw [if_pos hdel]
        simp only []
        rw [List.filterMap_append]
        simp [evCall]
      · rw [if_neg hdel]

theorem processRecord_supplMem (cfg : BatchConfig) (env : RecordEnv)
    (rec : ArticleRecord) (st : BatchState) :
    (BEvent.supplCall ∈ (processRecord cfg env rec st).2.1 ↔
      BEvent.supplCall ∈ (recordBody cfg env rec st.fs).events) := by
  unfold processRecord
  simp only []
  cases herr : (recordBody cfg env rec st.fs).err with
  | some e =>
    cases had : (recordBody cfg env rec st.fs).articleDir with
    | some dname =>
      simp only []
      simp [List.mem_append]
    | none =>
      simp only []
      simp [List.mem_append]
  | none =>
    simp only []
    by_cases hskip : (recordBody cfg env rec st.fs).skip = true
    · rw [if_pos hskip]
    · rw [if_neg hskip]
      by_cases hdel : delayTruthy cfg.delay_seconds = true
      · rw [if_pos hdel]
        simp only []
        simp [List.mem_append]
      · rw [if_neg hdel]

theorem processRecord_yielded (cfg : BatchConfig) (env : RecordEnv)
    (rec : ArticleRecord) (st : BatchState) :
    (processRecord cfg env rec st).1.yielded =
      st.yielded ++ (recordBody cfg env rec st.fs).yields := by
  unfold processRecord
  simp only []
  cases herr : (recordBody cfg env rec st.fs).err with
  | some e =>
    cases had : (recordBody cfg env rec st.fs).articleDir with
    | some dname => rfl
    | none => rfl
  | none =>
    simp only []
    by_cases hskip : (recordBody cfg env rec st.fs).skip = true
    · rw [if_pos hskip]
    · rw [if_neg hskip]
      by_cases hdel : delayTruthy cfg.delay_seconds = true
      · rw [if_pos hdel]
      · rw [if_neg hdel]

theorem processRecord_failures_some (cfg : BatchConfig) (env : RecordEnv)
    (rec : ArticleRecord) (st : BatchState) (e : PyError)
    (he : (recordBody cfg env rec st.fs).err = some e) :
    (processRecord cfg env rec st).1.failures =
      st.failures ++ [failIdent e rec] := by
  unfold processRecord
  simp only []
  rw [he]

theorem processRecord_failures_none (cfg : BatchConfig) (env : RecordEnv)
    (rec : ArticleRecord) (st : BatchState)
    (he : (recordBody cfg env rec st.fs).err = none) :
    (processRecord cfg env rec st).1.failures = st.failures := by
  unfold processRecord
  simp only []
  rw [he]
  simp only []
  by_cases hskip : (recordBody cfg env rec st.fs).skip = true
  · rw [if_pos hskip]
  · rw [if_neg hskip]
    by_cases hdel : delayTruthy cfg.delay_seconds = true
    · rw [if_pos hdel]
    · rw [if_neg hdel]

theorem processRecord_fs_some (cfg : BatchConfig) (env : RecordEnv)
    (rec : ArticleRecord) (st : BatchState) (e : PyError) (dname : String)
    (he : (recordBody cfg env rec st.fs).err = some e)
    (had : (recordBody cfg env rec st.fs).articleDir = some dname) :
    (processRecord cfg env rec st).1.fs =
      cleanupDir (recordBody cfg env rec st.fs).fs dname := by
  unfold processRecord
  simp only []
  rw [he, had]

/-- C1: the provider chain of a "Crossref"-classified record with a DOI and
a fresh article directory.  Whenever the OpenAlex client is configured it is
called first; with only the Crossref client configured, Crossref is the sole
provider call; with neither configured, the record is reported failed once
under its DOI with no provider call, no supplement call and an unchanged
filesystem; an OpenAlex success yields the PDF and supplements without
calling Crossref and reports no failure; and when OpenAlex is configured but
its attempt fails, Crossref (when configured) is called as the second and
last provider, a Crossref success is the one yielded with no failure
reported, and if Crossref also fails the record is reported failed exactly
once. -/
theorem crossref_chain (cfg : BatchConfig) (env : RecordEnv)
    (rec : ArticleRecord) (st : BatchState) (d : String)
    (hpub : rec.publisher = some "Crossref") (hdoi : rec.doi = some d)
    (hd : ¬ d = "")
    (hfresh : ∀ n, fsHasFile st.fs (safe_identifier d, n) = false)
    (hdir : fsHasDir st.fs (safe_identifier d) = false) :
    (cfg.hasOpenalex = true →
      (((processRecord cfg env rec st).2.1).filterMap evCall).head? =
        some Provider.openalex)
    ∧ (cfg.hasOpenalex = false → cfg.hasCrossref = true →
        ((processRecord cfg env rec st).2.1).filterMap evCall =
          [Provider.crossref])
    ∧ (cfg.hasOpenalex = false → cfg.hasCrossref = false →
        ((processRecord cfg env rec st).2.1).filterMap evCall = []
        ∧ BEvent.supplCall ∉ (processRecord cfg env rec st).2.1
        ∧ (processRecord cfg env rec st).1.fs = st.fs
        ∧ (processRecord cfg env rec st).1.failures = st.failures ++ [d])
    ∧ (∀ bytes names, cfg.hasOpenalex = true →
        env.openalex = .ok bytes → env.suppl 0 = .saved names →
        Provider.crossref ∉
            ((processRecord cfg env rec st).2.1).filterMap evCall
        ∧ (processRecord cfg env rec st).1.yielded =
            st.yielded ++
              (safe_identifier d, safe_identifier d ++ ".pdf") ::
                names.map (fun n => (safe_identifier d, n))
        ∧ (processRecord cfg env rec st).1.failures = st.failures)
    ∧ (cfg.hasOpenalex = true → cfg.hasCrossref = true →
        (∀ b, ¬ env.openalex = .ok b) →
        ((processRecord cfg env rec st).2.1).filterMap evCall =
          [Provider.openalex, Provider.crossref]
        ∧ ((∀ b, ¬ env.crossref = .ok b) →
            (processRecord cfg env rec st).1.failures.length =
              st.failures.length + 1)
        ∧ (∀ bytes names, env.crossref = .ok bytes →
            env.suppl 0 = .saved names →
            (processRecord cfg env rec st).1.yielded =
              st.yielded ++
                (safe_identifier d, safe_identifier d ++ ".pdf") ::
                  names.map (fun n => (safe_identifier d, n))
            ∧ (processRecord cfg env rec st).1.failures = st.failures)) := by
  have hbody : recordBody cfg env rec st.fs =
      crossrefFinish (safe_identifier d)
        (crossrefChain cfg env (safe_identifier d) st.fs) := by
    rw [recordBody_crossref cfg env rec st.fs hpub]
    unfold crossrefBranch
    rw [hdoi]
    simp only [Option.getD_some]
    rw [if_neg hd]
  have hfailid : ∀ m, failIdent (.downloadError m) rec = d := by
    intro m
    unfold failIdent
    simp only []
    rw [hdoi]
    simp only [Option.getD_some]
    rw [if_pos hd]
  refine ⟨?_, ?_, ?_, ?_, ?_⟩
  · -- OpenAlex configured: it is the first provider called
    intro hOA
    rw [processRecord_calls, hbody, crossrefFinish_events,
      crossrefChain_OA cfg env _ st.fs hOA]
    by_cases hc :
        ¬ (chainBlock cfg.overwrite .openalex env.openalex env
            (safe_identifier d)
            ⟨st.fs, [], [], false, false, [], 0⟩).success = true
        ∧ cfg.hasCrossref = true
    · rw [if_pos hc, chainBlock_calls, chainBlock_calls]
      simp
    · rw [if_neg hc, chainBlock_calls]
      simp
  · -- only Crossref configured: it is the sole provider call
    intro hOA hCR
    rw [processRecord_calls, hbody, crossrefFinish_events,
      crossrefChain_noOA_CR cfg env _ st.fs hOA hCR, chainBlock_calls]
    rfl
  · -- neither configured: disqualified before any call
    intro hOA hCR
    have hchain := crossrefChain_noOA_noCR cfg env (safe_identifier d) st.fs
      hOA hCR
    have hbody3 : recordBody cfg env rec st.fs =
        ⟨st.fs, [], [], some (safe_identifier d), false, false,
          some (.downloadError
            "Neither OpenAlexClient nor CrossrefClient configured for Crossref record.")⟩ := by
      rw [hbody, hchain]
      rfl
    refine ⟨?_, ?_, ?_, ?_⟩
    · rw [processRecord_calls, hbody3]
      rfl
    · rw [processRecord_supplMem, hbody3]
      simp
    · rw [processRecord_fs_some cfg env rec st _ (safe_identifier d)
        (by rw [hbody3]) (by rw [hbody3])]
      rw [hbody3]
      exact cleanupDir_no_dir st.fs _ hdir
    · rw [processRecord_failures_some cfg env rec st _ (by rw [hbody3])]
      rw [hfailid]
  · -- OpenAlex success: yielded, Crossref never called, no failure
    intro bytes names hOA hoa hsup
    have hsucc : (chainBlock cfg.overwrite .openalex (.ok bytes) env
        (safe_identifier d)
        ⟨st.fs, [], [], false, false, [], 0⟩).success = true := by
      rw [chainBlock_ok_saved cfg.overwrite .openalex bytes names env _ _
        hfresh hsup]
    have hchain : crossrefChain cfg env (safe_identifier d) st.fs =
        chainBlock cfg.overwrite .openalex (.ok bytes) env
          (safe_identifier d) ⟨st.fs, [], [], false, false, [], 0⟩ := by
      rw [crossrefChain_OA cfg env _ st.fs hOA, hoa]
      rw [if_neg (show
        ¬ (¬ (chainBlock cfg.overwrite .openalex (.ok bytes) env
            (safe_identifier d)
            ⟨st.fs, [], [], false, false, [], 0⟩).success = true
          ∧ cfg.hasCrossref = true) from fun hcon => hcon.1 hsucc)]
    have hbody4 : recordBody cfg env rec st.fs =
        ⟨names.foldl (fun f n => fsWrite f (safe_identifier d, n) [])
            (fsWrite (fsAddDir st.fs (safe_identifier d))
              (safe_identifier d, safe_identifier d ++ ".pdf") bytes),
          (safe_identifier d, safe_identifier d ++ ".pdf") ::
            names.map (fun n => (safe_identifier d, n)),
          [BEvent.call .openalex,
            .yieldPdf (safe_identifier d) (safe_identifier d ++ ".pdf"),
            .supplCall] ++
            names.map (fun n => BEvent.yieldSuppl (safe_identifier d) n),
          some (safe_identifier d), true, false, none⟩ := by
      rw [hbody, hchain, crossrefFinish_success _ _ hsucc,
        chainBlock_ok_saved cfg.overwrite .openalex bytes names env _ _
          hfresh hsup]
      rfl
    refine ⟨?_, ?_, ?_⟩
    · rw [processRecord_calls, hbody4]
      dsimp only []
      rw [filterCalls_chain_ok]
      simp
    · rw [processRecord_yielded, hbody4]
    · exact processRecord_failures_none cfg env rec st (by rw [hbody4])
  · -- OpenAlex configured but failing: Crossref is the fallback
    intro hOA hCR hofail
    cases hoa : env.openalex with
    | ok b => exact absurd hoa (hofail b)
    | errDL m =>
      have hc1eq : chainBlock cfg.overwrite .openalex (.errDL m) env
          (safe_identifier d) ⟨st.fs, [], [], false, false, [], 0⟩ =
          ⟨fsAddDir st.fs (safe_identifier d), [],
            [BEvent.call .openalex], false, false,
            [.downloadError m], 0⟩ := by
        rw [chainBlock_errDL cfg.overwrite .openalex m env _ _ hfresh]
        rfl
      have hchain : crossrefChain cfg env (safe_identifier d) st.fs =
          chainBlock cfg.overwrite .crossref env.crossref env
            (safe_identifier d)
            ⟨fsAddDir st.fs (safe_identifier d), [],
              [BEvent.call .openalex], false, false,
              [.downloadError m], 0⟩ := by
        rw [crossrefChain_OA cfg env _ st.fs hOA, hoa, hc1eq]
        rw [if_pos (show
          ¬ (⟨fsAddDir st.fs (safe_identifier d), [],
              [BEvent.call .openalex], false, false,
              [.downloadError m], 0⟩ : ChainState).success = true
            ∧ cfg.hasCrossref = true from ⟨by simp, hCR⟩)]
      have hfresh2 : ∀ n,
          fsHasFile (fsAddDir st.fs (safe_identifier d))
            (safe_identifier d, n) = false :=
        fun n => (fsHasFile_fsAddDir st.fs _ _).trans (hfresh n)
      refine ⟨?_, ?_, ?_⟩
      · rw [processRecord_calls, hbody, crossrefFinish_events, hchain,
          chainBlock_calls]
        rfl
      · intro hcfail
        cases hcr : env.crossref with
        | ok b2 => exact absurd hcr (hcfail b2)
        | errDL m2 =>
          have h5s : (chainBlock cfg.overwrite .crossref (.errDL m2) env
              (safe_identifier d)
              ⟨fsAddDir st.fs (safe_identifier d), [],
                [BEvent.call .openalex], false, false,
                [.downloadError m], 0⟩).success = false := by
            rw [chainBlock_errDL cfg.overwrite .crossref m2 env _ _ hfresh2]
          have h5l : (chainBlock cfg.overwrite .crossref (.errDL m2) env
              (safe_identifier d)
              ⟨fsAddDir st.fs (safe_identifier d), [],
                [BEvent.call .openalex], false, false,
                [.downloadError m], 0⟩).tried.getLast? =
              some (.downloadError m2) := by
            rw [chainBlock_errDL cfg.overwrite .crossref m2 env _ _ hfresh2]
            dsimp only []
            exact List.getLast?_concat _
          rw [processRecord_failures_some cfg env rec st (.downloadError m2)
            (by rw [hbody, hchain, hcr, crossrefFinish_fail _ _ _ h5s h5l])]
          simp
        | errOther =>
          have h5s : (chainBlock cfg.overwrite .crossref .errOther env
              (safe_identifier d)
              ⟨fsAddDir st.fs (safe_identifier d), [],
                [BEvent.call .openalex], false, false,
                [.downloadError m], 0⟩).success = false := by
            rw [chainBlock_errOther cfg.overwrite .crossref env _ _ hfresh2]
          have h5l : (chainBlock cfg.overwrite .crossref .errOther env
              (safe_identifier d)
              ⟨fsAddDir st.fs (safe_identifier d), [],
                [BEvent.call .openalex], false, false,
                [.downloadError m], 0⟩).tried.getLast? =
              some .otherError := by
            rw [chainBlock_errOther cfg.overwrite .crossref env _ _ hfresh2]
            dsimp only []
            exact List.getLast?_concat _
          rw [processRecord_failures_some cfg env rec st .otherError
            (by rw [hbody, hchain, hcr, crossrefFinish_fail _ _ _ h5s h5l])]
          simp
      · intro bytes names hcr hsup
        have hsucc2 : (chainBlock cfg.overwrite .crossref (.ok bytes) env
            (safe_identifier d)
            ⟨fsAddDir st.fs (safe_identifier d), [],
              [BEvent.call .openalex], false, false,
              [.downloadError m], 0⟩).success = true := by
          rw [chainBlock_ok_saved cfg.overwrite .crossref bytes names env _ _
            hfresh2 hsup]
        have hbody5 : recordBody cfg env rec st.fs =
            ⟨names.foldl (fun f n => fsWrite f (safe_identifier d, n) [])
                (fsWrite (fsAddDir (fsAddDir st.fs (safe_identifier d))
                    (safe_identifier d))
                  (safe_identifier d, safe_identifier d ++ ".pdf") bytes),
              (safe_identifier d, safe_identifier d ++ ".pdf") ::
                names.map (fun n => (safe_identifier d, n)),
              [BEvent.call .openalex] ++
                [BEvent.call .crossref,
                  .yieldPdf (safe_identifier d)
                    (safe_identifier d ++ ".pdf"), .supplCall] ++
                names.map (fun n =>
                  BEvent.yieldSuppl (safe_identifier d) n),
              some (safe_identifier d), true, false, none⟩ := by
          rw [hbody, hchain, hcr, crossrefFinish_success _ _ hsucc2,
            chainBlock_ok_saved cfg.overwrite .crossref bytes names env _ _
              hfresh2 hsup]
          rfl
        refine ⟨?_, ?_⟩
        · rw [processRecord_yielded, hbody5]
        · exact processRecord_failures_none cfg env rec st (by rw [hbody5])
    | errOther =>
      have hc1eq : chainBlock cfg.overwrite .openalex .errOther env
          (safe_identifier d) ⟨st.fs, [], [], false, false, [], 0⟩ =
          ⟨fsAddDir st.fs (safe_identifier d), [],
            [BEvent.call .openalex], false, false, [.otherError], 0⟩ := by
        rw [chainBlock_errOther cfg.overwrite .openalex env _ _ hfresh]
        rfl
      have hchain : crossrefChain cfg env (safe_identifier d) st.fs =
          chainBlock cfg.overwrite .crossref env.crossref env
            (safe_identifier d)
            ⟨fsAddDir st.fs (safe_identifier d), [],
              [BEvent.call .openalex], false, false, [.otherError], 0⟩ := by
        rw [crossrefChain_OA cfg env _ st.fs hOA, hoa, hc1eq]
        rw [if_pos (show
          ¬ (⟨fsAddDir st.fs (safe_identifier d), [],
              [BEvent.call .openalex], false, false,
              [.otherError], 0⟩ : ChainState).success = true
            ∧ cfg.hasCrossref = true from ⟨by simp, hCR⟩)]
      have hfresh2 : ∀ n,
          fsHasFile (fsAddDir st.fs (safe_identifier d))
            (safe_identifier d, n) = false :=
        fun n => (fsHasFile_fsAddDir st.fs _ _).trans (hfresh n)
      refine ⟨?_, ?_, ?_⟩
      · rw [processRecord_calls, hbody, crossrefFinish_events, hchain,
          chainBlock_calls]
        rfl
      · intro hcfail
        cases hcr : env.crossref with
        | ok b2 => exact absurd hcr (hcfail b2)
        | errDL m2 =>
          have h5s : (chainBlock cfg.overwrite .crossref (.errDL m2) env
              (safe_identifier d)
              ⟨fsAddDir st.fs (safe_identifier d), [],
                [BEvent.call .openalex], false, false,
                [.otherError], 0⟩).success = false := by
            rw [chainBlock_errDL cfg.overwrite .crossref m2 env _ _ hfresh2]
          have h5l : (chainBlock cfg.overwrite .crossref (.errDL m2) env
              (safe_identifier d)
              ⟨fsAddDir st.fs (safe_identifier d), [],
                [BEvent.call .openalex], false, false,
                [.otherError], 0⟩).tried.getLast? =
              some (.downloadError m2) := by
            rw [chainBlock_errDL cfg.overwrite .crossref m2 env _ _ hfresh2]
            dsimp only []
            exact List.getLast?_concat _
          rw [processRecord_failures_some cfg env rec st (.downloadError m2)
            (by rw [hbody, hchain, hcr, crossrefFinish_fail _ _ _ h5s h5l])]
          simp
        | errOther =>
          have h5s : (chainBlock cfg.overwrite .crossref .errOther env
              (safe_identifier d)
              ⟨fsAddDir st.fs (safe_identifier d), [],
                [BEvent.call .openalex], false, false,
                [.otherError], 0⟩).success = false := by
            rw [chainBlock_errOther cfg.overwrite .crossref env _ _ hfresh2]
          have h5l : (chainBlock cfg.overwrite .crossref .errOther env
              (safe_identifier d)
              ⟨fsAddDir st.fs (safe_identifier d), [],
                [BEvent.call .openalex], false, false,
                [.otherError], 0⟩).tried.getLast? = some .otherError := by
            rw [chainBlock_errOther cfg.overwrite .crossref env _ _ hfresh2]
            dsimp only []
            exact List.getLast?_concat _
          rw [processRecord_failures_some cfg env rec st .otherError
            (by rw [hbody, hchain, hcr, crossrefFinish_fail _ _ _ h5s h5l])]
          simp
      · intro bytes names hcr hsup
        have hsucc2 : (chainBlock cfg.overwrite .crossref (.ok bytes) env
            (safe_identifier d)
            ⟨fsAddDir st.fs (safe_identifier d), [],
              [BEvent.call .openalex], false, false,
              [.otherError], 0⟩).success = true := by
          rw [chainBlock_ok_saved cfg.overwrite .crossref bytes names env _ _
            hfresh2 hsup]
        have hbody5 : recordBody cfg env rec st.fs =
            ⟨names.foldl (fun f n => fsWrite f (safe_identifier d, n) [])
                (fsWrite (fsAddDir (fsAddDir st.fs (safe_identifier d))
                    (safe_identifier d))
                  (safe_identifier d, safe_identifier d ++ ".pdf") bytes),
              (safe_identifier d, safe_identifier d ++ ".pdf") ::
                names.map (fun n => (safe_identifier d, n)),
              [BEvent.call .openalex] ++
                [BEvent.call .crossref,
                  .yieldPdf (safe_identifier d)
                    (safe_identifier d ++ ".pdf"), .supplCall] ++
                names.map (fun n =>
                  BEvent.yieldSuppl (safe_identifier d) n),
              some (safe_identifier d), true, false, none⟩ := by
          rw [hbody, hchain, hcr, crossrefFinish_success _ _ hsucc2,
            chainBlock_ok_saved cfg.overwrite .crossref bytes names env _ _
              hfresh2 hsup]
          rfl
        refine ⟨?_, ?_⟩
        · rw [processRecord_yielded, hbody5]
        · exact processRecord_failures_none cfg env rec st (by rw [hbody5])

/-- Witness for C1: with both clients configured, the first provider call
for the sample Crossref record is OpenAlex. -/
theorem crossref_chain_witness :
    (((processRecord sampleCfg sampleEnvOk sampleRecCrossref
        sampleSt).2.1).filterMap evCall).head? = some Provider.openalex :=
  (crossref_chain sampleCfg sampleEnvOk sampleRecCrossref sampleSt
    "10.5555/y" rfl rfl (by decide) (fun _ => rfl) rfl).1 rfl

end AutoPaper
